import Mathlib

/-!
# ssrf-sheriff: the inbound request handler

A shallow embedding of `handler/handler.go` (`SSRFSheriffRouter.PathHandler` and
`readTemplateFile`) together with the parts of the Go standard library the handler
calls: `path/filepath.Ext`, `mime.TypeByExtension`, `encoding/json` and `encoding/xml`
marshalling of `SerializableResponse`, `fmt.Sprintf`, `path.Clean`, `path.Join` and
`unicode/utf8.DecodeRuneInString`.

Conventions of the embedding.

* A Go `string` (and a `[]byte`) is a finite sequence of bytes; a byte is a natural
  number below 256, so a string is a `List Nat`.  Bytes are written in hexadecimal with
  the character in a comment.
* Byte masks and shifts of the library are written arithmetically: `b & 0x3F` is
  `b % 64`, `r << 6` is `r * 64`, and the `|` of disjoint bit fields is `+`.
* Loops over a string that advance by a computed width take a fuel argument which the
  entry point sets to the length of the string; every iteration consumes at least one
  byte, so the fuel never runs out before the string does (the `_fuel` lemmas).
* `fmt.Sprintf` is embedded for string operands and formats made of text, `%%` and plain
  verbs; for a format with flags, width, precision, argument indexes or `%q` the
  embedding gives `none`.
* The world outside the process is an explicit argument: the MIME tables as they stand
  after the `mime` package initialised itself, the file system seen through
  `ioutil.ReadFile`, and the Slack service behind `PostMessage`.  File paths are Unix
  paths.

The file has three parts: the embedding, the vocabulary of the specification (among it a
reader for JSON objects and one for XML elements, against which the round trip of the
token is stated), and the lemmas and theorems.
-/

namespace SSRFSheriff

/-- A Go string: a sequence of bytes. -/
abbrev GoString := List Nat

/-- The bytes of an ASCII string literal of the source (for an ASCII character the code
point is the byte). -/
def str (s : String) : GoString := s.toList.map Char.toNat

/-! ## unicode/utf8 -/

namespace utf8

/-- The "error" rune U+FFFD. -/
def RuneError : Nat := 0xFFFD

/-- Bytes below `RuneSelf` are single-byte runes. -/
def RuneSelf : Nat := 0x80

/-- Entry of the table `first` for a leading byte: `0xF0` (`as`) for ASCII, `0xF1` (`xx`)
for an invalid leading byte, otherwise the size in the low three bits and the index of the
accept range for the second byte in the high four bits. -/
def first (b : Nat) : Nat :=
  if b < 0x80 then 0xF0          -- as
  else if b < 0xC2 then 0xF1     -- xx
  else if b < 0xE0 then 0x02     -- s1
  else if b = 0xE0 then 0x13     -- s2
  else if b < 0xED then 0x03     -- s3
  else if b = 0xED then 0x23     -- s4
  else if b < 0xF0 then 0x03     -- s3
  else if b = 0xF0 then 0x34     -- s5
  else if b < 0xF4 then 0x04     -- s6
  else if b = 0xF4 then 0x44     -- s7
  else 0xF1                      -- xx

/-- The table `acceptRanges`: lowest and highest admissible second byte. -/
def acceptRanges (i : Nat) : Nat × Nat :=
  if i = 0 then (0x80, 0xBF)
  else if i = 1 then (0xA0, 0xBF)
  else if i = 2 then (0x80, 0x9F)
  else if i = 3 then (0x90, 0xBF)
  else if i = 4 then (0x80, 0x8F)
  else (0, 0)

/-- `utf8.DecodeRuneInString`: the first rune of `s` and its width in bytes;
`(RuneError, 0)` for the empty string and `(RuneError, 1)` for an invalid encoding. -/
def DecodeRuneInString (s : GoString) : Nat × Nat :=
  match s with
  | [] => (RuneError, 0)
  | s0 :: _ =>
    let x := first s0
    if 0xF0 ≤ x then
      (if x = 0xF1 then RuneError else s0, 1)
    else
      let sz := x % 8
      let accept := acceptRanges (x / 16)
      if s.length < sz then (RuneError, 1)
      else
        let s1 := s.getD 1 0
        if s1 < accept.1 ∨ accept.2 < s1 then (RuneError, 1)
        else if sz ≤ 2 then ((s0 % 32) * 64 + s1 % 64, 2)
        else
          let s2 := s.getD 2 0
          if s2 < 0x80 ∨ 0xBF < s2 then (RuneError, 1)
          else if sz ≤ 3 then ((s0 % 16) * 4096 + (s1 % 64) * 64 + s2 % 64, 3)
          else
            let s3 := s.getD 3 0
            if s3 < 0x80 ∨ 0xBF < s3 then (RuneError, 1)
            else ((s0 % 8) * 262144 + (s1 % 64) * 4096 + (s2 % 64) * 64 + s3 % 64, 4)

/-- `utf8.EncodeRune` / `utf8.AppendRune`: the UTF-8 encoding of a rune; a surrogate or a
value above U+10FFFF is encoded as U+FFFD. -/
def EncodeRune (r : Nat) : GoString :=
  if r ≤ 0x7F then [r]
  else if r ≤ 0x7FF then [0xC0 + r / 64, 0x80 + r % 64]
  else if 0x10FFFF < r ∨ (0xD800 ≤ r ∧ r ≤ 0xDFFF) then [0xEF, 0xBF, 0xBD]
  else if r ≤ 0xFFFF then [0xE0 + r / 4096, 0x80 + (r / 64) % 64, 0x80 + r % 64]
  else [0xF0 + r / 262144, 0x80 + (r / 4096) % 64, 0x80 + (r / 64) % 64, 0x80 + r % 64]

/-- Walk over the runes of a string, checking `p rune width` at every step. -/
def allRunesLoop (p : Nat → Nat → Bool) : Nat → GoString → Bool
  | 0, s => s.isEmpty
  | _ + 1, [] => true
  | fuel + 1, b :: rest =>
    let d := DecodeRuneInString (b :: rest)
    p d.1 d.2 && allRunesLoop p fuel ((b :: rest).drop d.2)

/-- Every rune of `s`, decoded left to right, satisfies `p rune width`. -/
def allRunes (p : Nat → Nat → Bool) (s : GoString) : Bool :=
  allRunesLoop p s.length s

/-- `utf8.ValidString`: `s` consists entirely of valid UTF-8 encoded runes, i.e. decoding
never yields the pair `(RuneError, 1)`. -/
def ValidString (s : GoString) : Bool :=
  allRunes (fun r w => !(r = RuneError && w = 1)) s

end utf8

/-! ## path/filepath and path -/

namespace filepath

/-- The loop of `filepath.Ext`, run over the path from its last byte backwards; `acc` is
the text already passed. -/
def extLoop : GoString → GoString → GoString
  | [], _ => []
  | c :: before, acc =>
    if c = 0x2F then []                      -- os.IsPathSeparator(path[i]) on Unix
    else if c = 0x2E then c :: acc           -- path[i] == '.': return path[i:]
    else extLoop before (c :: acc)

/-- `filepath.Ext` (Unix): the suffix beginning at the final dot in the final
slash-separated element of the path; empty if there is no dot. -/
def Ext (path : GoString) : GoString := extLoop path.reverse []

end filepath

namespace path

/-- The backtracking of `path.Clean` on a `..` element: starting from write index `w`
(already decremented once), step back while `w > dotdot` and `buf[w]` is not a slash. -/
def backtrack (buf : GoString) (dotdot : Nat) : Nat → Nat
  | 0 => 0
  | w + 1 => if dotdot < w + 1 ∧ buf.getD (w + 1) 0 ≠ 0x2F then backtrack buf dotdot w else w + 1

/-- The main loop of `path.Clean`: `rest` is the unread part of the path, `out` the
bytes written so far, `dotdot` the index in `out` where `..` must stop. -/
def cleanLoop (rooted : Bool) : Nat → GoString → GoString → Nat → GoString
  | 0, _, out, _ => out
  | _ + 1, [], out, _ => out
  | fuel + 1, c :: rest, out, dotdot =>
    if c = 0x2F then
      -- empty path element
      cleanLoop rooted fuel rest out dotdot
    else if c = 0x2E ∧ (rest = [] ∨ rest.head? = some 0x2F) then
      -- . element
      cleanLoop rooted fuel rest out dotdot
    else if c = 0x2E ∧ rest.head? = some 0x2E ∧
        (rest.tail = [] ∨ rest.tail.head? = some 0x2F) then
      -- .. element: remove to last /
      if dotdot < out.length then
        cleanLoop rooted fuel rest.tail (out.take (backtrack out dotdot (out.length - 1))) dotdot
      else if !rooted then
        let out1 := (if 0 < out.length then out ++ [0x2F] else out) ++ [0x2E, 0x2E]
        cleanLoop rooted fuel rest.tail out1 out1.length
      else
        cleanLoop rooted fuel rest.tail out dotdot
    else
      -- real path element: add slash if needed, copy element
      let out1 :=
        if (rooted ∧ out.length ≠ 1) ∨ (!rooted ∧ out.length ≠ 0) then out ++ [0x2F] else out
      cleanLoop rooted fuel ((c :: rest).dropWhile (· ≠ 0x2F))
        (out1 ++ (c :: rest).takeWhile (· ≠ 0x2F)) dotdot

/-- `path.Clean`: the shortest path name equivalent to `p` by purely lexical
processing. -/
def Clean (p : GoString) : GoString :=
  if p = [] then str "."
  else
    let rooted : Bool := p.head? = some 0x2F
    let out :=
      if rooted then cleanLoop rooted p.length p.tail [0x2F] 1
      else cleanLoop rooted p.length p [] 0
    if out = [] then str "." else out

/-- The buffer `path.Join` builds: the elements separated by slashes, empty elements
skipped as long as the buffer is empty. -/
def joinBuf : GoString → List GoString → GoString
  | buf, [] => buf
  | buf, e :: es =>
    if 0 < buf.length ∨ e ≠ [] then
      joinBuf ((if 0 < buf.length then buf ++ [0x2F] else buf) ++ e) es
    else joinBuf buf es

/-- `path.Join`: joins the elements with slashes and cleans the result; the empty string
if all elements are empty. -/
def Join (elem : List GoString) : GoString :=
  if (elem.map List.length).sum = 0 then [] else Clean (joinBuf [] elem)

end path

/-! ## mime -/

namespace mime

/-- The state of package `mime` once initialised: the case-sensitive table `mimeTypes`
and the lower-cased table `mimeTypesLower` (the built-in table extended with the
system's MIME files), and `strings.ToLower`, used for extensions with a non-ASCII byte
(its Unicode case tables are not embedded). -/
structure Tables where
  /-- Case-sensitive table, extension (with dot) to type. -/
  mimeTypes : List (GoString × GoString)
  /-- Table keyed by lower-cased extension. -/
  mimeTypesLower : List (GoString × GoString)
  /-- The function strings.ToLower. -/
  ToLower : GoString → GoString

/-- ASCII lower-casing of one byte: `c + ('a' - 'A')` for `'A' ≤ c ≤ 'Z'`. -/
def lowerByte (c : Nat) : Nat := if 0x41 ≤ c ∧ c ≤ 0x5A then c + 0x20 else c

/-- `mime.TypeByExtension`: the MIME type associated with the extension `ext`, looked up
first case-sensitively, then case-insensitively; the empty string when there is none. -/
def TypeByExtension (m : Tables) (ext : GoString) : GoString :=
  match m.mimeTypes.lookup ext with
  | some v => v
  | none =>
    if ext.any (fun c => decide (0x80 ≤ c)) then
      -- slow path
      (m.mimeTypesLower.lookup (m.ToLower ext)).getD []
    else
      (m.mimeTypesLower.lookup (ext.map lowerByte)).getD []

/-- The table `builtinTypesLower` of `mime/type.go` (as in current Go releases; older
releases lack some of the entries, `.pdf`, `.png`, `.gif`, `.html` and `.xml` have been
there from the start). -/
def builtinTypesLower : List (GoString × GoString) :=
  [ (str ".avif", str "image/avif"),
    (str ".css", str "text/css; charset=utf-8"),
    (str ".gif", str "image/gif"),
    (str ".htm", str "text/html; charset=utf-8"),
    (str ".html", str "text/html; charset=utf-8"),
    (str ".jpeg", str "image/jpeg"),
    (str ".jpg", str "image/jpeg"),
    (str ".js", str "text/javascript; charset=utf-8"),
    (str ".json", str "application/json"),
    (str ".mjs", str "text/javascript; charset=utf-8"),
    (str ".pdf", str "application/pdf"),
    (str ".png", str "image/png"),
    (str ".svg", str "image/svg+xml"),
    (str ".wasm", str "application/wasm"),
    (str ".webp", str "image/webp"),
    (str ".xml", str "text/xml; charset=utf-8") ]

/-- The tables of a process on a system without MIME files: both tables are the built-in
one.  Lower-casing is instantiated with the ASCII mapping, which agrees with
`strings.ToLower` on ASCII text. -/
def builtinTables : Tables :=
  { mimeTypes := builtinTypesLower
    mimeTypesLower := builtinTypesLower
    ToLower := fun s => s.map lowerByte }

end mime

/-! ## encoding/json -/

namespace json

/-- The digit table `hex = "0123456789abcdef"`. -/
def hex (n : Nat) : Nat := (str "0123456789abcdef").getD n 0

/-- The table `htmlSafeSet`: the ASCII bytes from space to DEL that are written without
escaping: all of them except the double quote, `&`, `<`, `>` and the backslash. -/
def htmlSafeSet (b : Nat) : Bool :=
  decide (0x20 ≤ b ∧ b < 0x80 ∧ b ≠ 0x22 ∧ b ≠ 0x26 ∧ b ≠ 0x3C ∧ b ≠ 0x3E ∧ b ≠ 0x5C)

/-- The escape written for an ASCII byte outside `htmlSafeSet`.  (Go 1.22 and later
write `\b` and `\f` for backspace and form feed where earlier releases, embedded here,
write `\u0008` and `\u000c`; the two forms denote the same characters.) -/
def escapeByte (b : Nat) : GoString :=
  if b = 0x5C ∨ b = 0x22 then [0x5C, b]            -- \\ and \"
  else if b = 0x0A then [0x5C, 0x6E]                -- \n
  else if b = 0x0D then [0x5C, 0x72]                -- \r
  else if b = 0x09 then [0x5C, 0x74]                -- \t
  else str "\\u00" ++ [hex (b / 16), hex (b % 16)]  -- \u00XX: control bytes, <, >, &

/-- The loop of `(*encodeState).string` with `escapeHTML` set, as `json.Marshal` runs
it: ASCII bytes are copied or escaped, an invalid UTF-8 byte becomes `\ufffd`, U+2028 and
U+2029 become `\u2028` and `\u2029`, every other rune is copied. -/
def stringLoop : Nat → GoString → GoString
  | 0, _ => []
  | _ + 1, [] => []
  | fuel + 1, b :: rest =>
    if b < utf8.RuneSelf then
      if htmlSafeSet b then b :: stringLoop fuel rest
      else escapeByte b ++ stringLoop fuel rest
    else
      let d := utf8.DecodeRuneInString (b :: rest)
      if d.1 = utf8.RuneError ∧ d.2 = 1 then
        str "\\ufffd" ++ stringLoop fuel ((b :: rest).drop d.2)
      else if d.1 = 0x2028 ∨ d.1 = 0x2029 then
        str "\\u202" ++ [hex (d.1 % 16)] ++ stringLoop fuel ((b :: rest).drop d.2)
      else
        (b :: rest).take d.2 ++ stringLoop fuel ((b :: rest).drop d.2)

/-- A Go string as a JSON string literal, quotes included. -/
def encodeString (s : GoString) : GoString :=
  [0x22] ++ stringLoop s.length s ++ [0x22]

end json

/-- SerializableResponse is a generic type which both can be safely serialized to both
XML and JSON; its one field is tagged `json:"token" xml:"token"`. -/
structure SerializableResponse where
  /-- The field SecretToken. -/
  SecretToken : GoString

namespace json

/-- `json.Marshal` of a `SerializableResponse`: an object with the single key `token`.
Marshalling this type cannot fail, so only the bytes are returned. -/
def Marshal (v : SerializableResponse) : GoString :=
  str "\x7b" ++ encodeString (str "token") ++ str ":" ++ encodeString v.SecretToken ++ str "\x7d"

end json

/-! ## encoding/xml -/

namespace xml

/-- The set of characters XML 1.0 admits, section 2.2 (`isInCharacterRange`). -/
def isInCharacterRange (r : Nat) : Bool :=
  decide (r = 0x09 ∨ r = 0x0A ∨ r = 0x0D ∨ (0x20 ≤ r ∧ r ≤ 0xD7FF) ∨
    (0xE000 ≤ r ∧ r ≤ 0xFFFD) ∨ (0x10000 ≤ r ∧ r ≤ 0x10FFFF))

/-- The loop of `(*printer).EscapeString`, with which `xml.Marshal` writes the text of a
string field (it is `xml.EscapeText` for a string): the XML-escaped equivalent of plain
text.  Quotes, `&`, `<`, `>`, tab, newline and carriage return are written as references;
a rune outside the XML character range, or an invalid byte, is written as U+FFFD. -/
def escapeStringLoop : Nat → GoString → GoString
  | 0, _ => []
  | _ + 1, [] => []
  | fuel + 1, b :: rest =>
    let d := utf8.DecodeRuneInString (b :: rest)
    let tail := escapeStringLoop fuel ((b :: rest).drop d.2)
    if d.1 = 0x22 then str "&#34;" ++ tail
    else if d.1 = 0x27 then str "&#39;" ++ tail
    else if d.1 = 0x26 then str "&amp;" ++ tail
    else if d.1 = 0x3C then str "&lt;" ++ tail
    else if d.1 = 0x3E then str "&gt;" ++ tail
    else if d.1 = 0x09 then str "&#x9;" ++ tail
    else if d.1 = 0x0A then str "&#xA;" ++ tail
    else if d.1 = 0x0D then str "&#xD;" ++ tail
    else if !isInCharacterRange d.1 ∨ (d.1 = 0xFFFD ∧ d.2 = 1) then
      [0xEF, 0xBF, 0xBD] ++ tail
    else (b :: rest).take d.2 ++ tail

/-- The escaped text `(*printer).EscapeString` writes for a string. -/
def EscapeString (s : GoString) : GoString := escapeStringLoop s.length s

/-- `xml.Marshal` of a `SerializableResponse`: an element named after the type with one
child element `token` holding the escaped text.  Marshalling this type cannot fail. -/
def Marshal (v : SerializableResponse) : GoString :=
  str "<SerializableResponse><token>" ++ EscapeString v.SecretToken ++
    str "</token></SerializableResponse>"

end xml

/-! ## fmt -/

namespace fmt

/-- What `badVerb` writes for a string operand: `%!verb(string=operand)`. -/
def badVerb (verb : Nat) (arg : GoString) : GoString :=
  str "%!" ++ [verb] ++ str "(string=" ++ arg ++ str ")"

/-- What `missingArg` writes: `%!verb(MISSING)`. -/
def missingArg (verb : Nat) : GoString := str "%!" ++ [verb] ++ str "(MISSING)"

/-- The bytes of a string in hexadecimal, two digits per byte (`fmtSx` without flags). -/
def fmtSx (digits : GoString) (v : GoString) : GoString :=
  v.flatMap (fun c => [digits.getD (c / 16) 0, digits.getD (c % 16) 0])

/-- `printArg` for a string operand and a verb, without flags, width or precision.
`%T` prints the type, `%s` and `%v` the string, `%x` and `%X` its bytes in hexadecimal;
any other verb is a bad verb.  `%q` (Go-syntax quoting) is outside the embedded fragment
and gives `none`. -/
def printArg (arg : GoString) (verb : Nat) : Option GoString :=
  if verb = 0x54 then some (str "string")                       -- 'T'
  else if verb = 0x70 then some (badVerb verb arg)              -- 'p'
  else if verb = 0x76 ∨ verb = 0x73 then some arg               -- 'v', 's'
  else if verb = 0x78 then some (fmtSx (str "0123456789abcdefx") arg)   -- 'x'
  else if verb = 0x58 then some (fmtSx (str "0123456789ABCDEFX") arg)   -- 'X'
  else if verb = 0x71 then none                                 -- 'q'
  else some (badVerb verb arg)

/-- The check for extra arguments at the end of `doPrintf`:
`%!(EXTRA string=a, string=b)` when operands are left over. -/
def extra (a : List GoString) (argNum : Nat) : GoString :=
  if argNum < a.length then
    str "%!(EXTRA " ++ (str ", ").intercalate ((a.drop argNum).map (fun x => str "string=" ++ x))
      ++ str ")"
  else []

/-- A byte that starts something other than a plain verb after `%`: a flag
(`#`, `0`, `+`, `-`, space), an argument index `[`, a width or precision (`*`, a digit,
`.`), or a non-ASCII verb. -/
def isComplex (c : Nat) : Bool :=
  decide (c = 0x23 ∨ c = 0x30 ∨ c = 0x2B ∨ c = 0x2D ∨ c = 0x20 ∨ c = 0x5B ∨ c = 0x2A ∨
    (0x31 ≤ c ∧ c ≤ 0x39) ∨ c = 0x2E ∨ 0x80 ≤ c)

/-- `(*pp).doPrintf` for string operands `a`, starting at operand `argNum`.  Text up to
the next `%` is copied; `%%` writes a percent sign; a verb consumes the next operand or
reports it missing; a `%` at the very end writes `%!(NOVERB)`; leftover operands are
reported at the end.  Formats with flags, width, precision, argument indexes or
non-ASCII verbs are outside the embedded fragment: the result is `none`. -/
def doPrintf (a : List GoString) : GoString → Nat → Option GoString
  | [], argNum => some (extra a argNum)
  | c :: rest, argNum =>
    if c ≠ 0x25 then (doPrintf a rest argNum).map (fun out => c :: out)
    else
      match rest with
      | [] => some (str "%!(NOVERB)" ++ extra a argNum)
      | verb :: rest1 =>
        if isComplex verb then none
        else if verb = 0x25 then (doPrintf a rest1 argNum).map (fun out => 0x25 :: out)
        else
          match a.get? argNum with
          | none => (doPrintf a rest1 argNum).map (fun out => missingArg verb ++ out)
          | some arg =>
            (printArg arg verb).bind (fun w =>
              (doPrintf a rest1 (argNum + 1)).map (fun out => w ++ out))

/-- `fmt.Sprintf(format, a...)` for string operands; `none` when the format leaves the
embedded fragment (see `doPrintf`). -/
def Sprintf (format : GoString) (a : List GoString) : Option GoString :=
  doPrintf a format 0

end fmt

/-! ## handler -/

namespace handler

/-- The file system as `ioutil.ReadFile` sees it: the content of the file at a path, or
`none` when reading fails (missing file, permission error, I/O error). -/
abbrev FileSystem := GoString → Option GoString

/-- An `http.Header`: keys with their lists of values. -/
abbrev Header := List (GoString × List GoString)

/-- `Header.Set`: the entries for `key` are replaced by the single value `value`.  Both
keys the handler sets, `Content-Type` and `X-Secret-Token`, are already in canonical
form, so `textproto.CanonicalMIMEHeaderKey` returns them unchanged. -/
def Header.Set (h : Header) (key value : GoString) : Header :=
  (key, [value]) :: h.filter (fun e => decide (e.1 ≠ key))

/-- The fields of the inbound `*http.Request` the handler reads. -/
structure Request where
  /-- The field RemoteAddr. -/
  RemoteAddr : GoString
  /-- The field URL.Path. -/
  Path : GoString
  /-- The field Header. -/
  Header : Header

/-- The map the handler logs and sends to Slack: `IP`, `Path`, `Response Content-Type`
and `Headers`.  The JSON text of the map is not embedded; the record stands for it. -/
structure Observation where
  /-- Entry "IP". -/
  IP : GoString
  /-- Entry "Path". -/
  Path : GoString
  /-- Entry "Response Content-Type". -/
  ContentType : GoString
  /-- Entry "Headers". -/
  Headers : Header
deriving DecidableEq

/-- The Slack service behind `slackClient.PostMessage(channelID, text)`: for a channel and
a message it returns a channel id, a timestamp and an error (`none` for `nil`). -/
abbrev SlackService := GoString → Observation → GoString × GoString × Option GoString

/-- SSRFSheriffRouter is a wrapper around mux.Router to handle HTTP requests to the
sheriff, with logging.  Of the configuration provider only the value of
`slack.channel_id` is kept. -/
structure SSRFSheriffRouter where
  /-- The field ssrfToken, read from `ssrf_token` at start-up. -/
  ssrfToken : GoString
  /-- The value of cfg.Get("slack.channel_id").String(). -/
  slackChannelID : GoString

/-- What the handler wrote to the `http.ResponseWriter`.  The body is `none` when a
template uses a formatting directive outside the embedded fragment of `fmt`. -/
structure Response where
  /-- The status code given to WriteHeader. -/
  status : Nat
  /-- The header map at the time of WriteHeader. -/
  header : Header
  /-- The bytes given to Write. -/
  body : Option GoString
deriving DecidableEq

/-- The log lines the handler emits.  Their text (the first is rendered by the
repository's `colorjson` package) is not embedded; an entry records that the line was
written and with which data. -/
inductive LogEntry where
  /-- The line "New inbound HTTP request ..." at level info. -/
  | inbound (record : Observation)
  /-- The line "slack send message" at level error, with the error and the channel id. -/
  | slackError (err : GoString) (channelID : GoString)
deriving DecidableEq

/-- The path `readTemplateFile` reads: `path.Join("templates", path.Clean(name))`. -/
def templatePath (templateFileName : GoString) : GoString :=
  path.Join [str "templates", path.Clean templateFileName]

/-- The function readTemplateFile: the content of the named file under `templates`, or
the empty string when reading it fails. -/
def readTemplateFile (fs : FileSystem) (templateFileName : GoString) : GoString :=
  match fs (templatePath templateFileName) with
  | none => []
  | some data => data

/-- The `switch fileExtension` of `PathHandler`: the response string for an extension. -/
def responseFor (fs : FileSystem) (ssrfToken : GoString) (fileExtension : GoString) :
    Option GoString :=
  if fileExtension = str ".json" then
    some (json.Marshal { SecretToken := ssrfToken })
  else if fileExtension = str ".xml" then
    some (xml.Marshal { SecretToken := ssrfToken })
  else if fileExtension = str ".html" then
    fmt.Sprintf (readTemplateFile fs (str "html.html")) [ssrfToken, ssrfToken]
  else if fileExtension = str ".csv" then
    fmt.Sprintf (readTemplateFile fs (str "csv.csv")) [ssrfToken]
  else if fileExtension = str ".txt" then
    fmt.Sprintf (str "token=%s") [ssrfToken]
  else if fileExtension = str ".gif" then
    some (readTemplateFile fs (str "gif.gif"))
  else if fileExtension = str ".png" then
    some (readTemplateFile fs (str "png.png"))
  else if fileExtension = str ".jpg" ∨ fileExtension = str ".jpeg" then
    some (readTemplateFile fs (str "jpeg.jpg"))
  else if fileExtension = str ".mp3" then
    some (readTemplateFile fs (str "mp3.mp3"))
  else if fileExtension = str ".mp4" then
    some (readTemplateFile fs (str "mp4.mp4"))
  else
    some ssrfToken

/-- PathHandler is the main handler for all inbound requests: the response it writes and
the lines it logs, for given MIME tables, file system and Slack service. -/
def PathHandler (m : mime.Tables) (fs : FileSystem) (slack : SlackService)
    (s : SSRFSheriffRouter) (r : Request) : Response × List LogEntry :=
  let fileExtension := filepath.Ext r.Path
  let contentType := mime.TypeByExtension m fileExtension
  let response := responseFor fs s.ssrfToken fileExtension
  let contentType := if contentType = [] then str "text/plain" else contentType
  let record : Observation :=
    { IP := r.RemoteAddr, Path := r.Path, ContentType := contentType, Headers := r.Header }
  let posted := slack s.slackChannelID record
  let errorLog :=
    match posted.2.2 with
    | some err => [LogEntry.slackError err posted.1]
    | none => []
  let header :=
    Header.Set (Header.Set [] (str "Content-Type") contentType) (str "X-Secret-Token")
      s.ssrfToken
  ({ status := 200, header := header, body := response },
    LogEntry.inbound record :: errorLog)

end handler

/-! ## Vocabulary of the specification -/

namespace spec

/-- The extensions the `switch` of `PathHandler` has a case for. -/
def handledExtensions : List GoString :=
  [str ".json", str ".xml", str ".html", str ".csv", str ".txt", str ".gif", str ".png",
    str ".jpg", str ".jpeg", str ".mp3", str ".mp4"]

/-- The asset the specification names for a static-media extension:
`.gif -> gif.gif`, `.png -> png.png`, `.jpg` and `.jpeg -> jpeg.jpg`, `.mp3 -> mp3.mp3`,
`.mp4 -> mp4.mp4`. -/
def mediaAsset (ext : GoString) : Option GoString :=
  if ext = str ".gif" then some (str "gif.gif")
  else if ext = str ".png" then some (str "png.png")
  else if ext = str ".jpg" ∨ ext = str ".jpeg" then some (str "jpeg.jpg")
  else if ext = str ".mp3" then some (str "mp3.mp3")
  else if ext = str ".mp4" then some (str "mp4.mp4")
  else none

/-- The token consists only of characters the JSON encoder writes unescaped: valid
UTF-8 whose ASCII bytes are in `htmlSafeSet` and which has no U+2028 or U+2029. -/
def jsonUnescaped (token : GoString) : Bool :=
  utf8.allRunes (fun r w => !(r = utf8.RuneError && w = 1) &&
    (decide (0x80 ≤ r) || json.htmlSafeSet r) && !(r = 0x2028 || r = 0x2029)) token

/-- The token consists only of characters the XML encoder writes unescaped: valid UTF-8
in the XML character range without quotes, `&`, `<`, `>`, tab, newline or carriage
return. -/
def xmlUnescaped (token : GoString) : Bool :=
  utf8.allRunes (fun r w => xml.isInCharacterRange r && !(r = 0xFFFD && w = 1) &&
    !(r = 0x22 || r = 0x27 || r = 0x26 || r = 0x3C || r = 0x3E || r = 0x09 || r = 0x0A ||
      r = 0x0D)) token

/-- The token is valid UTF-8 and each of its characters is in the XML character range,
so that XML text can represent it. -/
def xmlRepresentable (token : GoString) : Bool :=
  utf8.allRunes (fun r w => xml.isInCharacterRange r && !(r = 0xFFFD && w = 1)) token

/-! ### A JSON reader for objects with string members -/

/-- The value of a hexadecimal digit. -/
def hexValue (c : Nat) : Option Nat :=
  if 0x30 ≤ c ∧ c ≤ 0x39 then some (c - 0x30)
  else if 0x61 ≤ c ∧ c ≤ 0x66 then some (c - 0x61 + 10)
  else if 0x41 ≤ c ∧ c ≤ 0x46 then some (c - 0x41 + 10)
  else none

/-- The byte a two-character JSON escape `\c` stands for. -/
def jsonEscape (c : Nat) : Option Nat :=
  if c = 0x22 ∨ c = 0x5C ∨ c = 0x2F then some c     -- \" \\ \/
  else if c = 0x62 then some 0x08                   -- \b
  else if c = 0x66 then some 0x0C                   -- \f
  else if c = 0x6E then some 0x0A                   -- \n
  else if c = 0x72 then some 0x0D                   -- \r
  else if c = 0x74 then some 0x09                   -- \t
  else none

/-- Reads a JSON string after its opening quote: the decoded bytes and the text after
the closing quote.  `\uXXXX` is decoded to the UTF-8 encoding of the code point;
escapes of surrogate halves and raw control bytes are rejected. -/
def jsonString : GoString → Option (GoString × GoString)
  | [] => none
  | c :: rest =>
    if c = 0x22 then some ([], rest)
    else if c = 0x5C then
      match rest with
      | [] => none
      | e :: rest1 =>
        if e = 0x75 then
          match rest1 with
          | h1 :: h2 :: h3 :: h4 :: rest2 =>
            match hexValue h1, hexValue h2, hexValue h3, hexValue h4 with
            | some a, some b, some c, some d =>
              let r := ((a * 16 + b) * 16 + c) * 16 + d
              if 0xD800 ≤ r ∧ r ≤ 0xDFFF then none
              else (jsonString rest2).map (fun p => (utf8.EncodeRune r ++ p.1, p.2))
            | _, _, _, _ => none
          | _ => none
        else
          match jsonEscape e with
          | some b => (jsonString rest1).map (fun p => (b :: p.1, p.2))
          | none => none
    else if c < 0x20 then none
    else (jsonString rest).map (fun p => (c :: p.1, p.2))

/-- Drops leading JSON or XML white space (space, tab, newline, carriage return). -/
def skipSpace : GoString → GoString
  | [] => []
  | c :: rest =>
    if c = 0x20 ∨ c = 0x09 ∨ c = 0x0A ∨ c = 0x0D then skipSpace rest else c :: rest

/-- After optional white space, the byte `c`; the text after it. -/
def expect (c : Nat) (s : GoString) : Option GoString :=
  match skipSpace s with
  | [] => none
  | d :: rest => if d = c then some rest else none

/-- Reads the members of a JSON object after its opening brace, up to and including the
closing brace; the members must be strings. -/
def jsonMembers : Nat → GoString → Option (List (GoString × GoString) × GoString)
  | 0, _ => none
  | fuel + 1, s =>
    (expect 0x22 s).bind fun s1 =>
    (jsonString s1).bind fun key =>
    (expect 0x3A key.2).bind fun s2 =>
    (expect 0x22 s2).bind fun s3 =>
    (jsonString s3).bind fun value =>
    match expect 0x7D value.2 with
    | some s4 => some ([(key.1, value.1)], s4)
    | none =>
      (expect 0x2C value.2).bind fun s5 =>
      (jsonMembers fuel s5).map fun more => ((key.1, value.1) :: more.1, more.2)

/-- Parses a JSON text that is an object with string members: its members in order of
appearance, or `none` if the text is not such an object. -/
def parseJSONObject (s : GoString) : Option (List (GoString × GoString)) :=
  (expect 0x7B s).bind fun s1 =>
  match expect 0x7D s1 with
  | some s2 => if skipSpace s2 = [] then some [] else none
  | none =>
    (jsonMembers s.length s1).bind fun members =>
    if skipSpace members.2 = [] then some members.1 else none

/-! ### An XML reader for an element whose children hold text -/

/-- Reads the digits of a numeric character reference in the given base. -/
def xmlDigits (base : Nat) : GoString → Nat → Option Nat
  | [], acc => some acc
  | c :: rest, acc =>
    match hexValue c with
    | some v => if v < base then xmlDigits base rest (acc * base + v) else none
    | none => none

/-- The bytes a reference stands for, given the text between `&` and `;`: one of the
five predefined entities, or a decimal or hexadecimal character reference to a
character of the XML character range. -/
def xmlReference (ref : GoString) : Option GoString :=
  if ref = str "amp" then some [0x26]
  else if ref = str "lt" then some [0x3C]
  else if ref = str "gt" then some [0x3E]
  else if ref = str "quot" then some [0x22]
  else if ref = str "apos" then some [0x27]
  else
    match ref with
    | 0x23 :: 0x78 :: d :: ds =>
      (xmlDigits 16 (d :: ds) 0).bind fun r =>
        if xml.isInCharacterRange r then some (utf8.EncodeRune r) else none
    | 0x23 :: d :: ds =>
      (xmlDigits 10 (d :: ds) 0).bind fun r =>
        if xml.isInCharacterRange r then some (utf8.EncodeRune r) else none
    | _ => none

/-- Reads character data up to the next `<`: the decoded text and the remaining input.
The first argument is the reference being read, if any. -/
def xmlCharData : Option GoString → GoString → Option (GoString × GoString)
  | none, [] => some ([], [])
  | some _, [] => none
  | none, c :: rest =>
    if c = 0x3C then some ([], c :: rest)
    else if c = 0x26 then xmlCharData (some []) rest
    else (xmlCharData none rest).map (fun p => (c :: p.1, p.2))
  | some ref, c :: rest =>
    if c = 0x3B then
      (xmlReference ref).bind fun bytes =>
        (xmlCharData none rest).map (fun p => (bytes ++ p.1, p.2))
    else if c = 0x3C ∨ c = 0x26 then none
    else xmlCharData (some (ref ++ [c])) rest

/-- Reads a tag name up to `>`: the name and the input after the `>`.  The name is not
empty and has no `<`, `&`, `/`, quote or white space. -/
def xmlName : GoString → GoString → Option (GoString × GoString)
  | _, [] => none
  | name, c :: rest =>
    if c = 0x3E then (if name = [] then none else some (name, rest))
    else if c = 0x3C ∨ c = 0x26 ∨ c = 0x2F ∨ c = 0x22 ∨ c = 0x27 ∨ c = 0x20 ∨ c = 0x09 ∨
        c = 0x0A ∨ c = 0x0D then none
    else xmlName (name ++ [c]) rest

/-- Reads a start tag `<name>`: the name and the input after it. -/
def xmlStartTag (s : GoString) : Option (GoString × GoString) :=
  match s with
  | 0x3C :: rest => xmlName [] rest
  | _ => none

/-- Reads the end tag `</name>` of the given name: the input after it. -/
def xmlEndTag (name : GoString) (s : GoString) : Option GoString :=
  match s with
  | 0x3C :: 0x2F :: rest =>
    (xmlName [] rest).bind fun p => if p.1 = name then some p.2 else none
  | _ => none

/-- Reads child elements `<name>text</name>` until an end tag follows: the children in
order and the remaining input. -/
def xmlChildren : Nat → GoString → Option (List (GoString × GoString) × GoString)
  | 0, _ => none
  | fuel + 1, s =>
    if s.take 2 = [0x3C, 0x2F] then some ([], s)
    else
      (xmlStartTag s).bind fun start =>
      (xmlCharData none start.2).bind fun text =>
      (xmlEndTag start.1 text.2).bind fun s1 =>
      (xmlChildren fuel s1).map fun more => ((start.1, text.1) :: more.1, more.2)

/-- Parses an XML text that is one element whose children are elements holding text: the
element's name and its children (name and decoded text) in order, or `none` if the text
is not of that form. -/
def parseXMLElement (s : GoString) : Option (GoString × List (GoString × GoString)) :=
  (xmlStartTag s).bind fun start =>
  (xmlChildren s.length start.2).bind fun children =>
  (xmlEndTag start.1 children.2).bind fun s1 =>
  if s1 = [] then some (start.1, children.1) else none

end spec

/-! ## Concrete worlds used to instantiate the theorems -/

namespace sample

/-- A templates directory in which no file can be read. -/
def noFiles : handler.FileSystem := fun _ => none

/-- A templates directory with an HTML template with two `%s`, the CSV template
`token,\n%s,\n` and a four-byte `jpeg.jpg` that is not valid UTF-8. -/
def assets : handler.FileSystem := fun p =>
  if p = str "templates/html.html" then some (str "<html><b>%s</b><i>%s</i></html>")
  else if p = str "templates/csv.csv" then some (str "token,\n%s,\n")
  else if p = str "templates/jpeg.jpg" then some [0xFF, 0xD8, 0xFF, 0xE0]
  else none

/-- A file system with a file `x` next to the `templates` directory and a file in a
subdirectory of it. -/
def outside : handler.FileSystem := fun p =>
  if p = str "x" then some (str "outside")
  else if p = str "templates/sub/x" then some (str "nested")
  else none

/-- A Slack service that accepts every message. -/
def slackUp : handler.SlackService := fun channel _ => (channel, str "1700000000.000100", none)

/-- A Slack service that rejects every message. -/
def slackDown : handler.SlackService := fun _ _ => ([], [], some (str "invalid_auth"))

/-- A router with the token `abc123`. -/
def router : handler.SSRFSheriffRouter := { ssrfToken := str "abc123", slackChannelID := str "C0" }

/-- A router with a given token. -/
def routerWith (token : GoString) : handler.SSRFSheriffRouter :=
  { ssrfToken := token, slackChannelID := str "C0" }

/-- A request for a given path. -/
def request (path : GoString) : handler.Request :=
  { RemoteAddr := str "10.0.0.1:4242", Path := path, Header := [] }

end sample

/-! ## Lemmas on UTF-8 decoding -/

namespace utf8

/-- The table `first` by ranges of the leading byte. -/
theorem first_cases (b : Nat) :
    (b < 0x80 ∧ first b = 0xF0) ∨
    ((0x80 ≤ b ∧ b < 0xC2 ∨ 0xF4 < b) ∧ first b = 0xF1) ∨
    (0xC2 ≤ b ∧ b < 0xE0 ∧ first b = 0x02) ∨
    (b = 0xE0 ∧ first b = 0x13) ∨
    ((0xE1 ≤ b ∧ b < 0xED ∨ b = 0xEE ∨ b = 0xEF) ∧ first b = 0x03) ∨
    (b = 0xED ∧ first b = 0x23) ∨
    (b = 0xF0 ∧ first b = 0x34) ∨
    (0xF1 ≤ b ∧ b < 0xF4 ∧ first b = 0x04) ∨
    (b = 0xF4 ∧ first b = 0x44) := by
  unfold first
  split_ifs <;> simp <;> omega

/-- An ASCII byte decodes to itself with width one. -/
theorem DecodeRuneInString_ascii (b : Nat) (rest : GoString) (h : b < 0x80) :
    DecodeRuneInString (b :: rest) = (b, 1) := by
  have hf : first b = 0xF0 := by unfold first; simp [h]
  simp [DecodeRuneInString, hf]

/-- The outcomes of decoding at a non-ASCII leading byte: an error of width one, or a
well-formed sequence of two, three or four bytes. -/
theorem DecodeRuneInString_cases (b : Nat) (rest : GoString) (h : 0x80 ≤ b) :
    DecodeRuneInString (b :: rest) = (RuneError, 1) ∨
    (∃ s1 t, rest = s1 :: t ∧ 0xC2 ≤ b ∧ b ≤ 0xDF ∧ 0x80 ≤ s1 ∧ s1 ≤ 0xBF ∧
      DecodeRuneInString (b :: rest) = ((b % 32) * 64 + s1 % 64, 2)) ∨
    (∃ s1 s2 t, rest = s1 :: s2 :: t ∧ 0xE0 ≤ b ∧ b ≤ 0xEF ∧ 0x80 ≤ s1 ∧ s1 ≤ 0xBF ∧
      (b = 0xE0 → 0xA0 ≤ s1) ∧ (b = 0xED → s1 ≤ 0x9F) ∧ 0x80 ≤ s2 ∧ s2 ≤ 0xBF ∧
      DecodeRuneInString (b :: rest) = ((b % 16) * 4096 + (s1 % 64) * 64 + s2 % 64, 3)) ∨
    (∃ s1 s2 s3 t, rest = s1 :: s2 :: s3 :: t ∧ 0xF0 ≤ b ∧ b ≤ 0xF4 ∧ 0x80 ≤ s1 ∧ s1 ≤ 0xBF ∧
      (b = 0xF0 → 0x90 ≤ s1) ∧ (b = 0xF4 → s1 ≤ 0x8F) ∧ 0x80 ≤ s2 ∧ s2 ≤ 0xBF ∧
      0x80 ≤ s3 ∧ s3 ≤ 0xBF ∧
      DecodeRuneInString (b :: rest) =
        ((b % 8) * 262144 + (s1 % 64) * 4096 + (s2 % 64) * 64 + s3 % 64, 4)) := by
  rcases first_cases b with ⟨hb, _⟩ | ⟨hb, hf⟩ | ⟨hb1, hb2, hf⟩ | ⟨hb, hf⟩ | ⟨hb, hf⟩ |
    ⟨hb, hf⟩ | ⟨hb, hf⟩ | ⟨hb1, hb2, hf⟩ | ⟨hb, hf⟩
  · omega
  · left; simp [DecodeRuneInString, hf]
  · rcases rest with _ | ⟨s1, t⟩
    · left; simp [DecodeRuneInString, hf, acceptRanges]
    · by_cases hs1 : s1 < 0x80 ∨ 0xBF < s1
      · left; simp [DecodeRuneInString, hf, acceptRanges, hs1]
      · right; left
        refine ⟨s1, t, rfl, hb1, by omega, by omega, by omega, ?_⟩
        simp [DecodeRuneInString, hf, acceptRanges, hs1]
  · rcases rest with _ | ⟨s1, _ | ⟨s2, t⟩⟩
    · left; simp [DecodeRuneInString, hf, acceptRanges]
    · left; simp [DecodeRuneInString, hf, acceptRanges]
    · by_cases hs1 : s1 < 0xA0 ∨ 0xBF < s1
      · left; simp [DecodeRuneInString, hf, acceptRanges, hs1]
      · by_cases hs2 : s2 < 0x80 ∨ 0xBF < s2
        · left; simp [DecodeRuneInString, hf, acceptRanges, hs1, hs2]
        · right; right; left
          refine ⟨s1, s2, t, rfl, by omega, by omega, by omega, by omega, by omega, by omega,
            by omega, by omega, ?_⟩
          simp [DecodeRuneInString, hf, acceptRanges, hs1, hs2]
  · rcases rest with _ | ⟨s1, _ | ⟨s2, t⟩⟩
    · left; simp [DecodeRuneInString, hf, acceptRanges]
    · left; simp [DecodeRuneInString, hf, acceptRanges]
    · by_cases hs1 : s1 < 0x80 ∨ 0xBF < s1
      · left; simp [DecodeRuneInString, hf, acceptRanges, hs1]
      · by_cases hs2 : s2 < 0x80 ∨ 0xBF < s2
        · left; simp [DecodeRuneInString, hf, acceptRanges, hs1, hs2]
        · right; right; left
          refine ⟨s1, s2, t, rfl, by omega, by omega, by omega, by omega, by omega, by omega,
            by omega, by omega, ?_⟩
          simp [DecodeRuneInString, hf, acceptRanges, hs1, hs2]
  · rcases rest with _ | ⟨s1, _ | ⟨s2, t⟩⟩
    · left; simp [DecodeRuneInString, hf, acceptRanges]
    · left; simp [DecodeRuneInString, hf, acceptRanges]
    · by_cases hs1 : s1 < 0x80 ∨ 0x9F < s1
      · left; simp [DecodeRuneInString, hf, acceptRanges, hs1]
      · by_cases hs2 : s2 < 0x80 ∨ 0xBF < s2
        · left; simp [DecodeRuneInString, hf, acceptRanges, hs1, hs2]
        · right; right; left
          refine ⟨s1, s2, t, rfl, by omega, by omega, by omega, by omega, by omega, by omega,
            by omega, by omega, ?_⟩
          simp [DecodeRuneInString, hf, acceptRanges, hs1, hs2]
  · rcases rest with _ | ⟨s1, _ | ⟨s2, _ | ⟨s3, t⟩⟩⟩
    · left; simp [DecodeRuneInString, hf, acceptRanges]
    · left; simp [DecodeRuneInString, hf, acceptRanges]
    · left; simp [DecodeRuneInString, hf, acceptRanges]
    · by_cases hs1 : s1 < 0x90 ∨ 0xBF < s1
      · left; simp [DecodeRuneInString, hf, acceptRanges, hs1]
      · by_cases hs2 : s2 < 0x80 ∨ 0xBF < s2
        · left; simp [DecodeRuneInString, hf, acceptRanges, hs1, hs2]
        · by_cases hs3 : s3 < 0x80 ∨ 0xBF < s3
          · left; simp [DecodeRuneInString, hf, acceptRanges, hs1, hs2, hs3]
          · right; right; right
            refine ⟨s1, s2, s3, t, rfl, by omega, by omega, by omega, by omega, by omega,
              by omega, by omega, by omega, by omega, by omega, ?_⟩
            simp [DecodeRuneInString, hf, acceptRanges, hs1, hs2, hs3]
  · rcases rest with _ | ⟨s1, _ | ⟨s2, _ | ⟨s3, t⟩⟩⟩
    · left; simp [DecodeRuneInString, hf, acceptRanges]
    · left; simp [DecodeRuneInString, hf, acceptRanges]
    · left; simp [DecodeRuneInString, hf, acceptRanges]
    · by_cases hs1 : s1 < 0x80 ∨ 0xBF < s1
      · left; simp [DecodeRuneInString, hf, acceptRanges, hs1]
      · by_cases hs2 : s2 < 0x80 ∨ 0xBF < s2
        · left; simp [DecodeRuneInString, hf, acceptRanges, hs1, hs2]
        · by_cases hs3 : s3 < 0x80 ∨ 0xBF < s3
          · left; simp [DecodeRuneInString, hf, acceptRanges, hs1, hs2, hs3]
          · right; right; right
            refine ⟨s1, s2, s3, t, rfl, by omega, by omega, by omega, by omega, by omega,
              by omega, by omega, by omega, by omega, by omega, ?_⟩
            simp [DecodeRuneInString, hf, acceptRanges, hs1, hs2, hs3]
  · rcases rest with _ | ⟨s1, _ | ⟨s2, _ | ⟨s3, t⟩⟩⟩
    · left; simp [DecodeRuneInString, hf, acceptRanges]
    · left; simp [DecodeRuneInString, hf, acceptRanges]
    · left; simp [DecodeRuneInString, hf, acceptRanges]
    · by_cases hs1 : s1 < 0x80 ∨ 0x8F < s1
      · left; simp [DecodeRuneInString, hf, acceptRanges, hs1]
      · by_cases hs2 : s2 < 0x80 ∨ 0xBF < s2
        · left; simp [DecodeRuneInString, hf, acceptRanges, hs1, hs2]
        · by_cases hs3 : s3 < 0x80 ∨ 0xBF < s3
          · left; simp [DecodeRuneInString, hf, acceptRanges, hs1, hs2, hs3]
          · right; right; right
            refine ⟨s1, s2, s3, t, rfl, by omega, by omega, by omega, by omega, by omega,
              by omega, by omega, by omega, by omega, by omega, ?_⟩
            simp [DecodeRuneInString, hf, acceptRanges, hs1, hs2, hs3]

/-- Decoding a non-empty string consumes at least one byte and no more than there are. -/
theorem DecodeRuneInString_width (b : Nat) (rest : GoString) :
    1 ≤ (DecodeRuneInString (b :: rest)).2 ∧
      (DecodeRuneInString (b :: rest)).2 ≤ (b :: rest).length := by
  by_cases h : b < 0x80
  · rw [DecodeRuneInString_ascii b rest h]; simp
  · rcases DecodeRuneInString_cases b rest (by omega) with h1 | ⟨s1, t, rfl, -, -, -, -, h1⟩ |
      ⟨s1, s2, t, rfl, -, -, -, -, -, -, -, -, h1⟩ |
      ⟨s1, s2, s3, t, rfl, -, -, -, -, -, -, -, -, -, -, h1⟩ <;> rw [h1] <;> simp

/-- The rune decoded at a non-ASCII leading byte is not an ASCII character. -/
theorem DecodeRuneInString_rune_ge (b : Nat) (rest : GoString) (h : 0x80 ≤ b) :
    0x80 ≤ (DecodeRuneInString (b :: rest)).1 := by
  rcases DecodeRuneInString_cases b rest h with h1 | ⟨s1, t, rfl, _, _, _, _, h1⟩ |
    ⟨s1, s2, t, rfl, _, _, _, _, _, _, _, _, h1⟩ |
    ⟨s1, s2, s3, t, rfl, _, _, _, _, _, _, _, _, _, _, h1⟩ <;> rw [h1] <;>
    simp only [RuneError] <;> omega

/-- The bytes consumed at a non-ASCII leading byte are all non-ASCII. -/
theorem DecodeRuneInString_take_ge (b : Nat) (rest : GoString) (h : 0x80 ≤ b) :
    ∀ c ∈ (b :: rest).take (DecodeRuneInString (b :: rest)).2, 0x80 ≤ c := by
  rcases DecodeRuneInString_cases b rest h with h1 | ⟨s1, t, rfl, _, _, _, _, h1⟩ |
    ⟨s1, s2, t, rfl, _, _, _, _, _, _, _, _, h1⟩ |
    ⟨s1, s2, s3, t, rfl, _, _, _, _, _, _, _, _, _, _, h1⟩ <;> rw [h1] <;>
    simp <;> omega

/-- The bytes consumed by a successful decoding are the encoding of the decoded rune. -/
theorem EncodeRune_DecodeRuneInString (b : Nat) (rest : GoString)
    (hvalid : DecodeRuneInString (b :: rest) ≠ (RuneError, 1)) :
    (b :: rest).take (DecodeRuneInString (b :: rest)).2 =
      EncodeRune (DecodeRuneInString (b :: rest)).1 := by
  by_cases h : b < 0x80
  · rw [DecodeRuneInString_ascii b rest h]
    have : b ≤ 0x7F := by omega
    simp [EncodeRune, this]
  · rcases DecodeRuneInString_cases b rest (by omega) with h1 | ⟨s1, t, rfl, _, _, _, _, h1⟩ |
      ⟨s1, s2, t, rfl, _, _, _, _, _, _, _, _, h1⟩ |
      ⟨s1, s2, s3, t, rfl, _, _, _, _, _, _, _, _, _, _, h1⟩
    · exact absurd h1 hvalid
    · rw [h1]
      simp only [EncodeRune, List.take_succ_cons, List.take_zero]
      rw [if_neg (by omega), if_pos (by omega)]
      congr 1
      · omega
      · congr 1; omega
    · rw [h1]
      simp only [EncodeRune, List.take_succ_cons, List.take_zero]
      rw [if_neg (by omega), if_neg (by omega), if_neg (by omega), if_pos (by omega)]
      congr 1
      · omega
      · congr 1
        · omega
        · congr 1; omega
    · rw [h1]
      simp only [EncodeRune, List.take_succ_cons, List.take_zero]
      rw [if_neg (by omega), if_neg (by omega), if_neg (by omega), if_neg (by omega)]
      congr 1
      · omega
      · congr 1
        · omega
        · congr 1
          · omega
          · congr 1; omega

end utf8

/-! ## The fuel of the loops suffices -/


/-- The JSON string loop does not depend on the fuel once it covers the string: the fuel
the entry point gives, the length of the string, never runs out. -/
theorem json.stringLoop_fuel (fuel₁ : Nat) :
    ∀ (fuel₂ : Nat) (s : GoString), s.length ≤ fuel₁ → s.length ≤ fuel₂ →
      json.stringLoop fuel₁ s = json.stringLoop fuel₂ s := by
  induction fuel₁ with
  | zero =>
    intro fuel₂ s h1 _
    have hs : s = [] := List.eq_nil_of_length_eq_zero (by omega)
    subst hs
    cases fuel₂ <;> rfl
  | succ fuel₁ ih =>
    intro fuel₂ s h1 h2
    cases s with
    | nil => cases fuel₂ <;> rfl
    | cons b rest =>
      obtain ⟨k, rfl⟩ : ∃ k, fuel₂ = k + 1 := ⟨fuel₂ - 1, by simp at h2; omega⟩
      have hw := utf8.DecodeRuneInString_width b rest
      simp only [List.length_cons] at h1 h2 hw
      have hrest := ih k rest (by omega) (by omega)
      have hdrop := ih k ((b :: rest).drop (utf8.DecodeRuneInString (b :: rest)).2)
        (by rw [List.length_drop]; simp only [List.length_cons]; omega)
        (by rw [List.length_drop]; simp only [List.length_cons]; omega)
      simp only [json.stringLoop, hrest, hdrop]

/-- The XML escaping loop does not depend on the fuel once it covers the string. -/
theorem xml.escapeStringLoop_fuel (fuel₁ : Nat) :
    ∀ (fuel₂ : Nat) (s : GoString), s.length ≤ fuel₁ → s.length ≤ fuel₂ →
      xml.escapeStringLoop fuel₁ s = xml.escapeStringLoop fuel₂ s := by
  induction fuel₁ with
  | zero =>
    intro fuel₂ s h1 _
    have hs : s = [] := List.eq_nil_of_length_eq_zero (by omega)
    subst hs
    cases fuel₂ <;> rfl
  | succ fuel₁ ih =>
    intro fuel₂ s h1 h2
    cases s with
    | nil => cases fuel₂ <;> rfl
    | cons b rest =>
      obtain ⟨k, rfl⟩ : ∃ k, fuel₂ = k + 1 := ⟨fuel₂ - 1, by simp at h2; omega⟩
      have hw := utf8.DecodeRuneInString_width b rest
      simp only [List.length_cons] at h1 h2 hw
      have hdrop := ih k ((b :: rest).drop (utf8.DecodeRuneInString (b :: rest)).2)
        (by rw [List.length_drop]; simp only [List.length_cons]; omega)
        (by rw [List.length_drop]; simp only [List.length_cons]; omega)
      simp only [xml.escapeStringLoop, hdrop]

/-- The walk over the runes of a string does not depend on the fuel once it covers the
string. -/
theorem utf8.allRunesLoop_fuel (p : Nat → Nat → Bool) (fuel₁ : Nat) :
    ∀ (fuel₂ : Nat) (s : GoString), s.length ≤ fuel₁ → s.length ≤ fuel₂ →
      utf8.allRunesLoop p fuel₁ s = utf8.allRunesLoop p fuel₂ s := by
  induction fuel₁ with
  | zero =>
    intro fuel₂ s h1 _
    have hs : s = [] := List.eq_nil_of_length_eq_zero (by omega)
    subst hs
    cases fuel₂ <;> rfl
  | succ fuel₁ ih =>
    intro fuel₂ s h1 h2
    cases s with
    | nil => cases fuel₂ <;> rfl
    | cons b rest =>
      obtain ⟨k, rfl⟩ : ∃ k, fuel₂ = k + 1 := ⟨fuel₂ - 1, by simp at h2; omega⟩
      have hw := utf8.DecodeRuneInString_width b rest
      simp only [List.length_cons] at h1 h2 hw
      have hdrop := ih k ((b :: rest).drop (utf8.DecodeRuneInString (b :: rest)).2)
        (by rw [List.length_drop]; simp only [List.length_cons]; omega)
        (by rw [List.length_drop]; simp only [List.length_cons]; omega)
      simp only [utf8.allRunesLoop, hdrop]

/-- The loop of `path.Clean` does not depend on the fuel once it covers the unread part
of the path. -/
theorem path.cleanLoop_fuel (rooted : Bool) (fuel₁ : Nat) :
    ∀ (fuel₂ : Nat) (rest out : GoString) (dotdot : Nat),
      rest.length ≤ fuel₁ → rest.length ≤ fuel₂ →
      path.cleanLoop rooted fuel₁ rest out dotdot = path.cleanLoop rooted fuel₂ rest out dotdot := by
  induction fuel₁ with
  | zero =>
    intro fuel₂ rest out dotdot h1 _
    have hs : rest = [] := List.eq_nil_of_length_eq_zero (by omega)
    subst hs
    cases fuel₂ <;> rfl
  | succ fuel₁ ih =>
    intro fuel₂ rest out dotdot h1 h2
    cases rest with
    | nil => cases fuel₂ <;> rfl
    | cons c rest =>
      obtain ⟨k, rfl⟩ : ∃ k, fuel₂ = k + 1 := ⟨fuel₂ - 1, by simp at h2; omega⟩
      simp only [List.length_cons] at h1 h2
      have htail : rest.tail.length ≤ rest.length := by simp
      by_cases h3 : c = 0x2F
      · simp only [path.cleanLoop, h3, if_true]
        exact ih k _ _ _ (by omega) (by omega)
      · have hc : decide (c ≠ 0x2F) = true := by simpa using h3
        have hd : (c :: rest).dropWhile (fun x => decide (x ≠ 0x2F)) =
            rest.dropWhile (fun x => decide (x ≠ 0x2F)) := by
          rw [List.dropWhile_cons]; simp only [hc, if_true]
        have hlen := (List.dropWhile_sublist (fun x => decide (x ≠ 0x2F)) (l := rest)).length_le
        simp only [path.cleanLoop, h3, if_false, hd]
        split_ifs <;> exact ih k _ _ _ (by omega) (by omega)

/-! ## Lemmas on formatting -/

namespace fmt

/-- A byte other than the percent sign is copied to the output. -/
theorem doPrintf_cons_literal (a : List GoString) (c : Nat) (rest : GoString) (argNum : Nat)
    (hc : c ≠ 0x25) :
    doPrintf a (c :: rest) argNum = (doPrintf a rest argNum).map (fun out => c :: out) := by
  cases rest <;> simp [doPrintf, hc]

/-- Text without a percent sign is copied to the output. -/
theorem doPrintf_literal (a : List GoString) (pre rest : GoString) (argNum : Nat)
    (h : 0x25 ∉ pre) :
    doPrintf a (pre ++ rest) argNum = (doPrintf a rest argNum).map (fun out => pre ++ out) := by
  induction pre with
  | nil => simp
  | cons c pre ih =>
    have hc : c ≠ 0x25 := fun hc => h (by simp [hc])
    have hpre : 0x25 ∉ pre := fun hp => h (by simp [hp])
    rw [List.cons_append, doPrintf_cons_literal _ _ _ _ hc, ih hpre]
    cases doPrintf a rest argNum <;> simp

/-- The verb `%s` writes the next operand. -/
theorem doPrintf_verb_s (a : List GoString) (rest : GoString) (argNum : Nat) (arg : GoString)
    (h : a.get? argNum = some arg) :
    doPrintf a (0x25 :: 0x73 :: rest) argNum =
      (doPrintf a rest (argNum + 1)).map (fun out => arg ++ out) := by
  rw [List.get?_eq_getElem?] at h
  simp [doPrintf, isComplex, printArg, h]

/-- A format with one `%s` and no other percent sign, applied to one operand. -/
theorem Sprintf_one_verb (pre post token : GoString) (hpre : 0x25 ∉ pre)
    (hpost : 0x25 ∉ post) :
    Sprintf (pre ++ str "%s" ++ post) [token] = some (pre ++ token ++ post) := by
  have hs : str "%s" = [0x25, 0x73] := by decide
  have hend : doPrintf [token] (post ++ []) 1 = some post := by
    rw [doPrintf_literal _ _ _ _ hpost]; simp [doPrintf, extra]
  rw [List.append_nil] at hend
  rw [Sprintf, hs, List.append_assoc, doPrintf_literal _ _ _ _ hpre]
  simp only [List.cons_append, List.nil_append]
  rw [doPrintf_verb_s _ _ _ token (by simp), hend]
  simp

/-- A format with two `%s` and no other percent sign, applied to two operands. -/
theorem Sprintf_two_verbs (a b c t₁ t₂ : GoString) (ha : 0x25 ∉ a) (hb : 0x25 ∉ b)
    (hc : 0x25 ∉ c) :
    Sprintf (a ++ str "%s" ++ b ++ str "%s" ++ c) [t₁, t₂] =
      some (a ++ t₁ ++ b ++ t₂ ++ c) := by
  have hs : str "%s" = [0x25, 0x73] := by decide
  have hend : doPrintf [t₁, t₂] (c ++ []) 2 = some c := by
    rw [doPrintf_literal _ _ _ _ hc]; simp [doPrintf, extra]
  rw [List.append_nil] at hend
  have hmid : doPrintf [t₁, t₂] (b ++ (0x25 :: 0x73 :: c)) 1 = some (b ++ t₂ ++ c) := by
    rw [doPrintf_literal _ _ _ _ hb, doPrintf_verb_s _ _ _ t₂ (by simp), hend]
    simp
  rw [Sprintf, hs]
  simp only [List.append_assoc, List.cons_append, List.nil_append]
  rw [doPrintf_literal _ _ _ _ ha, doPrintf_verb_s _ _ _ t₁ (by simp), hmid]
  simp

end fmt

/-! ## Lemmas on the encoders -/

/-- The JSON string loop copies a token of unescaped characters unchanged. -/
theorem json.stringLoop_unescaped (fuel : Nat) :
    ∀ s : GoString, s.length ≤ fuel →
      utf8.allRunesLoop (fun r w => !(r = utf8.RuneError && w = 1) &&
        (decide (0x80 ≤ r) || json.htmlSafeSet r) && !(r = 0x2028 || r = 0x2029)) fuel s = true →
      json.stringLoop fuel s = s := by
  induction fuel with
  | zero =>
    intro s hlen _
    have hs : s = [] := List.eq_nil_of_length_eq_zero (by omega)
    subst hs; rfl
  | succ fuel ih =>
    intro s hlen h
    cases s with
    | nil => rfl
    | cons b rest =>
      simp only [utf8.allRunesLoop, Bool.and_eq_true] at h
      obtain ⟨⟨⟨hvalid, hsafe⟩, hsep⟩, hrest⟩ := h
      have hw := utf8.DecodeRuneInString_width b rest
      have hdrop : ((b :: rest).drop (utf8.DecodeRuneInString (b :: rest)).2).length ≤ fuel := by
        rw [List.length_drop]; simp only [List.length_cons] at hlen ⊢; omega
      have ih1 := ih _ hdrop hrest
      by_cases hb : b < 0x80
      · rw [utf8.DecodeRuneInString_ascii b rest hb] at hsafe ih1
        have hs : json.htmlSafeSet b = true := by
          simpa [show ¬ (128 ≤ b) by omega] using hsafe
        simp only [List.drop_succ_cons, List.drop_zero] at ih1
        simp [json.stringLoop, utf8.RuneSelf, hb, hs, ih1]
      · have hne : ¬ ((utf8.DecodeRuneInString (b :: rest)).1 = utf8.RuneError ∧
            (utf8.DecodeRuneInString (b :: rest)).2 = 1) := by
          simp only [Bool.not_eq_true', Bool.and_eq_false_iff, decide_eq_false_iff_not] at hvalid
          tauto
        have hsep1 : ¬ ((utf8.DecodeRuneInString (b :: rest)).1 = 0x2028 ∨
            (utf8.DecodeRuneInString (b :: rest)).1 = 0x2029) := by
          simp only [Bool.not_eq_true', Bool.or_eq_false_iff, decide_eq_false_iff_not] at hsep
          tauto
        rw [json.stringLoop]
        simp only [utf8.RuneSelf, hb, if_false, hne, hsep1, ih1]
        exact List.take_append_drop _ _

/-- The XML escaping loop copies a token of unescaped characters unchanged. -/
theorem xml.escapeStringLoop_unescaped (fuel : Nat) :
    ∀ s : GoString, s.length ≤ fuel →
      utf8.allRunesLoop (fun r w => xml.isInCharacterRange r && !(r = 0xFFFD && w = 1) &&
        !(r = 0x22 || r = 0x27 || r = 0x26 || r = 0x3C || r = 0x3E || r = 0x09 || r = 0x0A ||
          r = 0x0D)) fuel s = true →
      xml.escapeStringLoop fuel s = s := by
  induction fuel with
  | zero =>
    intro s hlen _
    have hs : s = [] := List.eq_nil_of_length_eq_zero (by omega)
    subst hs; rfl
  | succ fuel ih =>
    intro s hlen h
    cases s with
    | nil => rfl
    | cons b rest =>
      simp only [utf8.allRunesLoop, Bool.and_eq_true] at h
      obtain ⟨⟨⟨hrange, hvalid⟩, hplain⟩, hrest⟩ := h
      have hw := utf8.DecodeRuneInString_width b rest
      have hdrop : ((b :: rest).drop (utf8.DecodeRuneInString (b :: rest)).2).length ≤ fuel := by
        rw [List.length_drop]; simp only [List.length_cons] at hlen ⊢; omega
      have ih1 := ih _ hdrop hrest
      simp only [Bool.not_eq_true', Bool.or_eq_false_iff, Bool.and_eq_false_iff,
        decide_eq_false_iff_not] at hvalid hplain
      obtain ⟨⟨⟨⟨⟨⟨⟨h1, h2⟩, h3⟩, h4⟩, h5⟩, h6⟩, h7⟩, h8⟩ := hplain
      have hne : ¬ ((utf8.DecodeRuneInString (b :: rest)).1 = 0xFFFD ∧
          (utf8.DecodeRuneInString (b :: rest)).2 = 1) := by tauto
      rw [xml.escapeStringLoop]
      simp only [h1, h2, h3, h4, h5, h6, h7, h8, if_false, hrange, hne, ih1, Bool.not_true,
        Bool.false_eq_true, or_self]
      exact List.take_append_drop _ _

/-- The JSON body for a token of unescaped characters is the token between the fixed
texts `{"token":"` and `"}`. -/
theorem json.Marshal_token_unescaped (token : GoString) (h : spec.jsonUnescaped token = true) :
    json.Marshal { SecretToken := token } = str "\x7b\"token\":\"" ++ token ++ str "\"\x7d" := by
  have hloop := json.stringLoop_unescaped token.length token (le_refl _) h
  have hkey : json.encodeString (str "token") = str "\"token\"" := by decide
  simp only [json.Marshal, hkey]
  simp only [json.encodeString, hloop]
  have h1 : str "\x7b" ++ str "\"token\"" ++ str ":" ++ [0x22] = str "\x7b\"token\":\"" := by decide
  have h2 : [0x22] ++ str "\x7d" = str "\"\x7d" := by decide
  rw [← h1, ← h2]
  simp only [List.append_assoc]

/-- The XML body for a token of unescaped characters is the token between the start and
end tags. -/
theorem xml.Marshal_text_unescaped (token : GoString) (h : spec.xmlUnescaped token = true) :
    xml.Marshal { SecretToken := token } =
      str "<SerializableResponse><token>" ++ token ++ str "</token></SerializableResponse>" := by
  have hloop := xml.escapeStringLoop_unescaped token.length token (le_refl _) h
  simp only [xml.Marshal, xml.EscapeString, hloop]

/-! ## Reading back the JSON body -/


/-- A byte that is neither a quote, a backslash nor a control byte is read as itself. -/
theorem spec.jsonString_cons_plain (c : Nat) (X : GoString) (h1 : c ≠ 0x22) (h2 : c ≠ 0x5C)
    (h3 : 0x20 ≤ c) :
    spec.jsonString (c :: X) = (spec.jsonString X).map (fun p => (c :: p.1, p.2)) := by
  have h4 : ¬ c < 0x20 := by omega
  rw [spec.jsonString.eq_def]
  simp [h1, h2, h4]

/-- A two-character escape is read as the byte it stands for. -/
theorem spec.jsonString_escape (e b : Nat) (X : GoString) (he : e ≠ 0x75)
    (hb : spec.jsonEscape e = some b) :
    spec.jsonString (0x5C :: e :: X) = (spec.jsonString X).map (fun p => (b :: p.1, p.2)) := by
  rw [spec.jsonString.eq_def]
  simp [he, hb]

/-- An escape `\uXXXX` of a non-surrogate code point is read as its UTF-8 encoding. -/
theorem spec.jsonString_unicode (h1 h2 h3 h4 a b c d : Nat) (X : GoString)
    (ha : spec.hexValue h1 = some a) (hb : spec.hexValue h2 = some b)
    (hc : spec.hexValue h3 = some c) (hd : spec.hexValue h4 = some d)
    (hs : ¬ (0xD800 ≤ ((a * 16 + b) * 16 + c) * 16 + d ∧
      ((a * 16 + b) * 16 + c) * 16 + d ≤ 0xDFFF)) :
    spec.jsonString (0x5C :: 0x75 :: h1 :: h2 :: h3 :: h4 :: X) =
      (spec.jsonString X).map
        (fun p => (utf8.EncodeRune (((a * 16 + b) * 16 + c) * 16 + d) ++ p.1, p.2)) := by
  rw [spec.jsonString.eq_def]
  simp [ha, hb, hc, hd, hs]



/-- A run of bytes none of which is a quote, a backslash or a control byte is read
unchanged. -/
theorem spec.jsonString_plain (bs X : GoString)
    (h : ∀ c ∈ bs, c ≠ 0x22 ∧ c ≠ 0x5C ∧ 0x20 ≤ c) :
    spec.jsonString (bs ++ X) = (spec.jsonString X).map (fun p => (bs ++ p.1, p.2)) := by
  induction bs with
  | nil => simp
  | cons c bs ih =>
    obtain ⟨h1, h2, h3⟩ := h c (by simp)
    rw [List.cons_append, spec.jsonString_cons_plain _ _ h1 h2 h3,
      ih (fun c hc => h c (by simp [hc]))]
    cases spec.jsonString X <;> simp

/-- The value of the digit the encoder writes for `n` is `n`. -/
theorem spec.hexValue_hex (n : Nat) (h : n < 16) : spec.hexValue (json.hex n) = some n := by
  interval_cases n <;> decide

/-- The escape the encoder writes for an ASCII byte is read as that byte. -/
theorem spec.jsonString_escapeByte (b : Nat) (X : GoString) (hb : b < 0x80) :
    spec.jsonString (json.escapeByte b ++ X) =
      (spec.jsonString X).map (fun p => (b :: p.1, p.2)) := by
  unfold json.escapeByte
  split_ifs with h1 h2 h3 h4
  · rcases h1 with h1 | h1 <;> subst h1 <;>
      exact spec.jsonString_escape _ _ X (by decide) (by decide)
  · subst h2; exact spec.jsonString_escape _ _ X (by decide) (by decide)
  · subst h3; exact spec.jsonString_escape _ _ X (by decide) (by decide)
  · subst h4; exact spec.jsonString_escape _ _ X (by decide) (by decide)
  · have hu : str "\\u00" = [0x5C, 0x75, 0x30, 0x30] := by decide
    have h0 : spec.hexValue 0x30 = some 0 := by decide
    rw [hu]
    simp only [List.cons_append, List.nil_append]
    rw [spec.jsonString_unicode _ _ _ _ 0 0 (b / 16) (b % 16) X h0 h0
      (spec.hexValue_hex _ (by omega)) (spec.hexValue_hex _ (by omega)) (by omega)]
    have hr : ((0 * 16 + 0) * 16 + b / 16) * 16 + b % 16 = b := by omega
    have he : utf8.EncodeRune b = [b] := by simp [utf8.EncodeRune, show b ≤ 0x7F by omega]
    rw [hr, he]
    rfl



/-- A quote ends the string. -/
theorem spec.jsonString_quote (tail : GoString) :
    spec.jsonString (0x22 :: tail) = some ([], tail) := by
  rw [spec.jsonString.eq_def]; simp

/-- Reading back what the JSON string loop wrote for valid UTF-8 gives the string. -/
theorem spec.jsonString_stringLoop (fuel : Nat) :
    ∀ s tail : GoString, s.length ≤ fuel →
      utf8.allRunesLoop (fun r w => !(r = utf8.RuneError && w = 1)) fuel s = true →
      spec.jsonString (json.stringLoop fuel s ++ 0x22 :: tail) = some (s, tail) := by
  induction fuel with
  | zero =>
    intro s tail hlen _
    have hs : s = [] := List.eq_nil_of_length_eq_zero (by omega)
    subst hs
    exact spec.jsonString_quote tail
  | succ fuel ih =>
    intro s tail hlen h
    cases s with
    | nil => exact spec.jsonString_quote tail
    | cons b rest =>
      simp only [utf8.allRunesLoop, Bool.and_eq_true] at h
      obtain ⟨hvalid, hrest⟩ := h
      have hw := utf8.DecodeRuneInString_width b rest
      have hdrop : ((b :: rest).drop (utf8.DecodeRuneInString (b :: rest)).2).length ≤ fuel := by
        rw [List.length_drop]; simp only [List.length_cons] at hlen ⊢; omega
      have ih1 := ih _ tail hdrop hrest
      by_cases hb : b < 0x80
      · rw [utf8.DecodeRuneInString_ascii b rest hb] at ih1
        simp only [List.drop_succ_cons, List.drop_zero] at ih1
        rw [json.stringLoop]
        simp only [utf8.RuneSelf, hb, if_true]
        by_cases hs : json.htmlSafeSet b = true
        · have hs' := hs
          simp only [json.htmlSafeSet, decide_eq_true_eq] at hs'
          simp only [hs, if_true, List.cons_append]
          rw [spec.jsonString_cons_plain _ _ (by omega) (by omega) (by omega), ih1]
          rfl
        · simp only [hs, if_false, Bool.false_eq_true, List.append_assoc]
          rw [spec.jsonString_escapeByte _ _ hb, ih1]
          rfl
      · have hne : ¬ ((utf8.DecodeRuneInString (b :: rest)).1 = utf8.RuneError ∧
            (utf8.DecodeRuneInString (b :: rest)).2 = 1) := by
          simp only [Bool.not_eq_true', Bool.and_eq_false_iff, decide_eq_false_iff_not] at hvalid
          tauto
        have hne' : utf8.DecodeRuneInString (b :: rest) ≠ (utf8.RuneError, 1) := by
          intro heq; rw [heq] at hne; exact hne ⟨rfl, rfl⟩
        have henc := utf8.EncodeRune_DecodeRuneInString b rest hne'
        rw [json.stringLoop]
        simp only [utf8.RuneSelf, hb, if_false, hne]
        by_cases hsep : (utf8.DecodeRuneInString (b :: rest)).1 = 0x2028 ∨
            (utf8.DecodeRuneInString (b :: rest)).1 = 0x2029
        · simp only [hsep, if_true]
          have hu : str "\\u202" = [0x5C, 0x75, 0x32, 0x30, 0x32] := by decide
          have h0 : spec.hexValue 0x30 = some 0 := by decide
          have h2 : spec.hexValue 0x32 = some 2 := by decide
          rw [hu]
          simp only [List.cons_append, List.nil_append, List.append_assoc]
          rw [spec.jsonString_unicode _ _ _ _ 2 0 2
            ((utf8.DecodeRuneInString (b :: rest)).1 % 16) _ h2 h0 h2
            (spec.hexValue_hex _ (by omega)) (by omega), ih1]
          have hr : ((2 * 16 + 0) * 16 + 2) * 16 + (utf8.DecodeRuneInString (b :: rest)).1 % 16 =
              (utf8.DecodeRuneInString (b :: rest)).1 := by omega
          rw [hr, ← henc]
          simp only [Option.map_some', List.take_append_drop]
        · simp only [hsep, if_false, List.append_assoc]
          rw [spec.jsonString_plain _ _ (fun c hc => by
            have := utf8.DecodeRuneInString_take_ge b rest (by omega) c hc
            omega), ih1]
          simp only [Option.map_some', List.take_append_drop]



/-- Expecting a byte where the input starts with a byte that is not white space. -/
theorem spec.expect_cons (d c : Nat) (X : GoString)
    (hc : ¬ (c = 0x20 ∨ c = 0x09 ∨ c = 0x0A ∨ c = 0x0D)) :
    spec.expect d (c :: X) = if c = d then some X else none := by
  simp only [spec.expect, spec.skipSpace, hc, if_false]

/-- An object with one string member is read as that member. -/
theorem spec.jsonMembers_single (fuel : Nat) (keyText valueText key value tail : GoString)
    (hkey : ∀ t, spec.jsonString (keyText ++ 0x22 :: t) = some (key, t))
    (hvalue : ∀ t, spec.jsonString (valueText ++ 0x22 :: t) = some (value, t)) :
    spec.jsonMembers (fuel + 1)
        (0x22 :: (keyText ++ 0x22 :: 0x3A :: 0x22 :: (valueText ++ 0x22 :: 0x7D :: tail))) =
      some ([(key, value)], tail) := by
  rw [spec.jsonMembers, spec.expect_cons _ _ _ (by decide)]
  simp only [if_true, Option.some_bind, hkey]
  rw [spec.expect_cons _ _ _ (by decide)]
  simp only [if_true, Option.some_bind]
  rw [spec.expect_cons _ _ _ (by decide)]
  simp only [if_true, Option.some_bind, hvalue]
  rw [spec.expect_cons _ _ _ (by decide)]
  simp only [if_true]

/-- A text that is an object with one string member parses to that member. -/
theorem spec.parseJSONObject_single (keyText valueText key value : GoString)
    (hkey : ∀ t, spec.jsonString (keyText ++ 0x22 :: t) = some (key, t))
    (hvalue : ∀ t, spec.jsonString (valueText ++ 0x22 :: t) = some (value, t)) :
    spec.parseJSONObject
        (0x7B :: 0x22 :: (keyText ++ 0x22 :: 0x3A :: 0x22 :: (valueText ++ 0x22 :: [0x7D]))) =
      some [(key, value)] := by
  rw [spec.parseJSONObject, spec.expect_cons _ _ _ (by decide)]
  simp only [if_true, Option.some_bind]
  rw [spec.expect_cons _ _ _ (by decide)]
  simp only [show ¬ (0x22 = 0x7D) by decide, if_false, List.length_cons]
  rw [spec.jsonMembers_single _ _ _ key value [] hkey hvalue]
  simp [spec.skipSpace]

/-- The JSON body of a valid UTF-8 token parses to the single member `token`. -/
theorem spec.parseJSONObject_Marshal (token : GoString) (h : utf8.ValidString token = true) :
    spec.parseJSONObject (json.Marshal { SecretToken := token }) =
      some [(str "token", token)] := by
  have hval : ∀ tail, spec.jsonString (json.stringLoop token.length token ++ 0x22 :: tail) =
      some (token, tail) := fun tail => spec.jsonString_stringLoop _ _ tail (le_refl _) h
  have hkey : ∀ tail, spec.jsonString (str "token" ++ 0x22 :: tail) = some (str "token", tail) := by
    intro tail
    rw [spec.jsonString_plain _ _ (by decide), spec.jsonString_quote]
    simp
  have hshape : json.Marshal { SecretToken := token } =
      0x7B :: 0x22 :: (str "token" ++ 0x22 :: 0x3A :: 0x22 ::
        (json.stringLoop token.length token ++ 0x22 :: [0x7D])) := by
    have hk : json.encodeString (str "token") = 0x22 :: (str "token" ++ [0x22]) := by decide
    have h1 : str "\x7b" = [0x7B] := by decide
    have h2 : str ":" = [0x3A] := by decide
    have h3 : str "\x7d" = [0x7D] := by decide
    rw [json.Marshal, hk, h1, h2, h3]
    simp only [json.encodeString, List.cons_append, List.nil_append, List.append_assoc]
  rw [hshape]
  exact spec.parseJSONObject_single _ _ _ _ hkey hval

/-! ## Reading back the XML body -/


/-- A byte other than `<` and `&` is character data. -/
theorem spec.xmlCharData_cons_plain (c : Nat) (X : GoString) (h1 : c ≠ 0x3C) (h2 : c ≠ 0x26) :
    spec.xmlCharData none (c :: X) = (spec.xmlCharData none X).map (fun p => (c :: p.1, p.2)) := by
  rw [spec.xmlCharData]
  simp [h1, h2]

/-- A run of bytes without `<` and `&` is read unchanged. -/
theorem spec.xmlCharData_plain (bs X : GoString) (h : ∀ c ∈ bs, c ≠ 0x3C ∧ c ≠ 0x26) :
    spec.xmlCharData none (bs ++ X) =
      (spec.xmlCharData none X).map (fun p => (bs ++ p.1, p.2)) := by
  induction bs with
  | nil => simp
  | cons c bs ih =>
    obtain ⟨h1, h2⟩ := h c (by simp)
    rw [List.cons_append, spec.xmlCharData_cons_plain _ _ h1 h2,
      ih (fun c hc => h c (by simp [hc]))]
    cases spec.xmlCharData none X <;> simp

/-- Inside a reference, bytes are collected up to the semicolon. -/
theorem spec.xmlCharData_in_reference (ref : GoString) :
    ∀ (acc X : GoString), (∀ c ∈ ref, c ≠ 0x3B ∧ c ≠ 0x3C ∧ c ≠ 0x26) →
      spec.xmlCharData (some acc) (ref ++ 0x3B :: X) =
        (spec.xmlReference (acc ++ ref)).bind fun bytes =>
          (spec.xmlCharData none X).map (fun p => (bytes ++ p.1, p.2)) := by
  induction ref with
  | nil =>
    intro acc X _
    rw [List.nil_append, spec.xmlCharData]
    simp
  | cons c ref ih =>
    intro acc X h
    obtain ⟨h1, h2, h3⟩ := h c (by simp)
    rw [List.cons_append, spec.xmlCharData]
    simp only [h1, h2, h3, if_false, or_self]
    rw [ih _ _ (fun c hc => h c (by simp [hc]))]
    simp

/-- A reference `&ref;` is read as the bytes it stands for. -/
theorem spec.xmlCharData_reference (ref bytes X : GoString)
    (h : ∀ c ∈ ref, c ≠ 0x3B ∧ c ≠ 0x3C ∧ c ≠ 0x26) (hr : spec.xmlReference ref = some bytes) :
    spec.xmlCharData none (0x26 :: (ref ++ 0x3B :: X)) =
      (spec.xmlCharData none X).map (fun p => (bytes ++ p.1, p.2)) := by
  rw [spec.xmlCharData]
  simp only [show ¬ (0x26 = 0x3C) by decide, if_false, if_true]
  rw [spec.xmlCharData_in_reference ref [] X h]
  simp [hr]



/-- Reading back what the XML escaping loop wrote for XML-representable text gives the
text. -/
theorem spec.xmlCharData_escapeStringLoop (fuel : Nat) :
    ∀ s tail : GoString, s.length ≤ fuel →
      utf8.allRunesLoop (fun r w => xml.isInCharacterRange r && !(r = 0xFFFD && w = 1)) fuel s
        = true →
      spec.xmlCharData none (xml.escapeStringLoop fuel s ++ 0x3C :: tail) =
        some (s, 0x3C :: tail) := by
  have hend : ∀ tail, spec.xmlCharData none (0x3C :: tail) = some ([], 0x3C :: tail) := by
    intro tail; rw [spec.xmlCharData]; simp
  induction fuel with
  | zero =>
    intro s tail hlen _
    have hs : s = [] := List.eq_nil_of_length_eq_zero (by omega)
    subst hs
    exact hend tail
  | succ fuel ih =>
    intro s tail hlen h
    cases s with
    | nil => exact hend tail
    | cons b rest =>
      simp only [utf8.allRunesLoop, Bool.and_eq_true] at h
      obtain ⟨⟨hrange, hvalid⟩, hrest⟩ := h
      have hw := utf8.DecodeRuneInString_width b rest
      have hdrop : ((b :: rest).drop (utf8.DecodeRuneInString (b :: rest)).2).length ≤ fuel := by
        rw [List.length_drop]; simp only [List.length_cons] at hlen ⊢; omega
      have ih1 := ih _ tail hdrop hrest
      have hne : ¬ ((utf8.DecodeRuneInString (b :: rest)).1 = 0xFFFD ∧
          (utf8.DecodeRuneInString (b :: rest)).2 = 1) := by
        simp only [Bool.not_eq_true', Bool.and_eq_false_iff, decide_eq_false_iff_not] at hvalid
        tauto
      rw [xml.escapeStringLoop]
      by_cases hb : b < 0x80
      · rw [utf8.DecodeRuneInString_ascii b rest hb] at ih1 hrange hne ⊢
        simp only [List.drop_succ_cons, List.drop_zero] at ih1 ⊢
        have esc : ∀ (text ref : GoString), text = 0x26 :: (ref ++ [0x3B]) →
            (∀ c ∈ ref, c ≠ 0x3B ∧ c ≠ 0x3C ∧ c ≠ 0x26) → spec.xmlReference ref = some [b] →
            spec.xmlCharData none (text ++ xml.escapeStringLoop fuel rest ++ 0x3C :: tail) =
              some (b :: rest, 0x3C :: tail) := by
          intro text ref htext href hbytes
          subst htext
          simp only [List.cons_append, List.append_assoc, List.nil_append]
          rw [spec.xmlCharData_reference ref [b] _ href hbytes, ih1]
          rfl
        split_ifs with h1 h2 h3 h4 h5 h6 h7 h8 h9
        · exact esc _ (str "#34") (by decide) (by decide) (by subst h1; decide)
        · exact esc _ (str "#39") (by decide) (by decide) (by subst h2; decide)
        · exact esc _ (str "amp") (by decide) (by decide) (by subst h3; decide)
        · exact esc _ (str "lt") (by decide) (by decide) (by subst h4; decide)
        · exact esc _ (str "gt") (by decide) (by decide) (by subst h5; decide)
        · exact esc _ (str "#x9") (by decide) (by decide) (by subst h6; decide)
        · exact esc _ (str "#xA") (by decide) (by decide) (by subst h7; decide)
        · exact esc _ (str "#xD") (by decide) (by decide) (by subst h8; decide)
        · exfalso
          rcases h9 with h9 | h9
          · simp [hrange] at h9
          · exact hne ⟨h9.1, rfl⟩
        · simp only [List.take_succ_cons, List.take_zero, List.cons_append, List.nil_append]
          rw [spec.xmlCharData_cons_plain _ _ h4 h3, ih1]
          rfl
      · have hge := utf8.DecodeRuneInString_rune_ge b rest (by omega)
        have hplain : ∀ c ∈ (b :: rest).take (utf8.DecodeRuneInString (b :: rest)).2,
            c ≠ 0x3C ∧ c ≠ 0x26 := fun c hc => by
          have := utf8.DecodeRuneInString_take_ge b rest (by omega) c hc
          omega
        have hcopy : spec.xmlCharData none
            ((b :: rest).take (utf8.DecodeRuneInString (b :: rest)).2 ++
              xml.escapeStringLoop fuel ((b :: rest).drop (utf8.DecodeRuneInString (b :: rest)).2) ++
              0x3C :: tail) = some (b :: rest, 0x3C :: tail) := by
          rw [List.append_assoc, spec.xmlCharData_plain _ _ hplain, ih1]
          simp only [Option.map_some', List.take_append_drop]
        generalize utf8.DecodeRuneInString (b :: rest) = d at hge hne hrange hcopy ⊢
        simp only [show ¬ d.1 = 0x22 by omega, show ¬ d.1 = 0x27 by omega,
          show ¬ d.1 = 0x26 by omega, show ¬ d.1 = 0x3C by omega, show ¬ d.1 = 0x3E by omega,
          show ¬ d.1 = 0x09 by omega, show ¬ d.1 = 0x0A by omega, show ¬ d.1 = 0x0D by omega,
          if_false, hrange, hne, Bool.not_true, Bool.false_eq_true, or_self]
        exact hcopy



/-- A run of name bytes followed by `>` is read as a name. -/
theorem spec.xmlName_append (name : GoString) :
    ∀ (acc X : GoString),
      (∀ c ∈ name, ¬ (c = 0x3E ∨ c = 0x3C ∨ c = 0x26 ∨ c = 0x2F ∨ c = 0x22 ∨ c = 0x27 ∨
        c = 0x20 ∨ c = 0x09 ∨ c = 0x0A ∨ c = 0x0D)) →
      acc ++ name ≠ [] →
      spec.xmlName acc (name ++ 0x3E :: X) = some (acc ++ name, X) := by
  induction name with
  | nil =>
    intro acc X _ hne
    rw [List.append_nil] at hne
    rw [List.nil_append, spec.xmlName]
    simp [hne]
  | cons c name ih =>
    intro acc X h hne
    have hc := h c (by simp)
    simp only [not_or] at hc
    obtain ⟨h0, h1, h2, h3, h4, h5, h6, h7, h8, h9⟩ := hc
    rw [List.cons_append, spec.xmlName]
    simp only [h0, h1, h2, h3, h4, h5, h6, h7, h8, h9, if_false, or_self]
    rw [ih _ _ (fun c hc => h c (by simp [hc])) (by simp)]
    simp

/-- A start tag `<name>` is read as its name. -/
theorem spec.xmlStartTag_name (name X : GoString)
    (h : ∀ c ∈ name, ¬ (c = 0x3E ∨ c = 0x3C ∨ c = 0x26 ∨ c = 0x2F ∨ c = 0x22 ∨ c = 0x27 ∨
        c = 0x20 ∨ c = 0x09 ∨ c = 0x0A ∨ c = 0x0D))
    (hne : name ≠ []) :
    spec.xmlStartTag (0x3C :: (name ++ 0x3E :: X)) = some (name, X) := by
  rw [spec.xmlStartTag, spec.xmlName_append name [] X h (by simpa using hne)]
  simp

/-- The end tag `</name>` is accepted for the name `name`. -/
theorem spec.xmlEndTag_name (name X : GoString)
    (h : ∀ c ∈ name, ¬ (c = 0x3E ∨ c = 0x3C ∨ c = 0x26 ∨ c = 0x2F ∨ c = 0x22 ∨ c = 0x27 ∨
        c = 0x20 ∨ c = 0x09 ∨ c = 0x0A ∨ c = 0x0D))
    (hne : name ≠ []) :
    spec.xmlEndTag name (0x3C :: 0x2F :: (name ++ 0x3E :: X)) = some X := by
  rw [spec.xmlEndTag, spec.xmlName_append name [] X h (by simpa using hne)]
  simp

/-- An element with one child holding text is read as that child. -/
theorem spec.parseXMLElement_single (root child escaped text : GoString)
    (hroot : ∀ c ∈ root, ¬ (c = 0x3E ∨ c = 0x3C ∨ c = 0x26 ∨ c = 0x2F ∨ c = 0x22 ∨ c = 0x27 ∨
        c = 0x20 ∨ c = 0x09 ∨ c = 0x0A ∨ c = 0x0D)) (hroot0 : root ≠ [])
    (hchild : ∀ c ∈ child, ¬ (c = 0x3E ∨ c = 0x3C ∨ c = 0x26 ∨ c = 0x2F ∨ c = 0x22 ∨ c = 0x27 ∨
        c = 0x20 ∨ c = 0x09 ∨ c = 0x0A ∨ c = 0x0D)) (hchild0 : child ≠ [])
    (hchild1 : child.head? ≠ some 0x2F)
    (htext : ∀ tail, spec.xmlCharData none (escaped ++ 0x3C :: tail) = some (text, 0x3C :: tail)) :
    spec.parseXMLElement
        (0x3C :: (root ++ 0x3E :: 0x3C :: (child ++ 0x3E ::
          (escaped ++ 0x3C :: 0x2F :: (child ++ 0x3E :: 0x3C :: 0x2F :: (root ++ [0x3E])))))) =
      some (root, [(child, text)]) := by
  rw [spec.parseXMLElement, spec.xmlStartTag_name root _ hroot hroot0]
  simp only [Option.some_bind, List.length_cons]
  have hnot : ∀ Y : GoString, ¬ ((0x3C :: (child ++ Y)).take 2 = [0x3C, 0x2F]) := by
    intro Y
    cases child with
    | nil => exact absurd rfl hchild0
    | cons c child =>
      have hc : c ≠ 0x2F := fun hc => hchild1 (by simp [hc])
      simp [hc]
  have hchildren : ∀ fuel, 2 ≤ fuel → spec.xmlChildren fuel
      (0x3C :: (child ++ 0x3E ::
          (escaped ++ 0x3C :: 0x2F :: (child ++ 0x3E :: 0x3C :: 0x2F :: (root ++ [0x3E]))))) =
      some ([(child, text)], 0x3C :: 0x2F :: (root ++ [0x3E])) := by
    intro fuel hfuel
    obtain ⟨k, rfl⟩ : ∃ k, fuel = k + 1 + 1 := ⟨fuel - 2, by omega⟩
    rw [spec.xmlChildren]
    simp only [hnot, if_false]
    rw [spec.xmlStartTag_name child _ hchild hchild0]
    simp only [Option.some_bind, htext]
    rw [spec.xmlEndTag_name child _ hchild hchild0]
    simp only [Option.some_bind]
    rw [spec.xmlChildren]
    simp
  rw [hchildren _ (by simp only [List.length_append, List.length_cons]; omega)]
  simp only [Option.some_bind]
  rw [spec.xmlEndTag_name root [] hroot hroot0]
  simp



/-- The XML body of an XML-representable token parses to the element
`SerializableResponse` with the single child `token`. -/
theorem spec.parseXMLElement_Marshal (token : GoString)
    (h : spec.xmlRepresentable token = true) :
    spec.parseXMLElement (xml.Marshal { SecretToken := token }) =
      some (str "SerializableResponse", [(str "token", token)]) := by
  have htext : ∀ tail, spec.xmlCharData none (xml.EscapeString token ++ 0x3C :: tail) =
      some (token, 0x3C :: tail) :=
    fun tail => spec.xmlCharData_escapeStringLoop _ _ tail (le_refl _) h
  have hopen : str "<SerializableResponse><token>" =
      0x3C :: (str "SerializableResponse" ++ 0x3E :: 0x3C :: (str "token" ++ [0x3E])) := by
    decide
  have hclose : str "</token></SerializableResponse>" =
      0x3C :: 0x2F :: (str "token" ++ 0x3E :: 0x3C :: 0x2F ::
        (str "SerializableResponse" ++ [0x3E])) := by
    decide
  have hshape : xml.Marshal { SecretToken := token } =
      0x3C :: (str "SerializableResponse" ++ 0x3E :: 0x3C :: (str "token" ++ 0x3E ::
        (xml.EscapeString token ++ 0x3C :: 0x2F :: (str "token" ++ 0x3E :: 0x3C :: 0x2F ::
          (str "SerializableResponse" ++ [0x3E]))))) := by
    rw [xml.Marshal, hopen, hclose]
    simp only [List.cons_append, List.nil_append, List.append_assoc]
  rw [hshape]
  exact spec.parseXMLElement_single _ _ _ _ (by decide) (by decide) (by decide) (by decide)
    (by decide) htext

/-! ## Lemmas on path cleaning -/


/-- A path element that is neither `.` nor `..`, at the end of the path or followed by a
slash, is copied by `path.Clean`, after a slash if something was written before. -/
theorem path.cleanLoop_element (fuel : Nat) (seg tail out : GoString) (dotdot : Nat)
    (hne : seg ≠ []) (hslash : 0x2F ∉ seg) (hdot : seg ≠ [0x2E]) (hdotdot : seg ≠ [0x2E, 0x2E])
    (htail : tail = [] ∨ tail.head? = some 0x2F) :
    path.cleanLoop false (fuel + 1) (seg ++ tail) out dotdot =
      path.cleanLoop false fuel tail ((if out.length ≠ 0 then out ++ [0x2F] else out) ++ seg)
        dotdot := by
  have hp : ∀ x ∈ seg, decide (x ≠ 0x2F) = true := by
    intro x hx
    have : x ≠ 0x2F := fun h => hslash (h ▸ hx)
    simpa using this
  have htake0 : tail.takeWhile (fun x => decide (x ≠ 0x2F)) = [] := by
    rcases htail with h | h
    · rw [h]; rfl
    · cases tail with
      | nil => rfl
      | cons d t =>
        simp only [List.head?_cons, Option.some.injEq] at h
        simp [List.takeWhile, h]
  have hdrop0 : tail.dropWhile (fun x => decide (x ≠ 0x2F)) = tail := by
    rcases htail with h | h
    · rw [h]; rfl
    · cases tail with
      | nil => rfl
      | cons d t =>
        simp only [List.head?_cons, Option.some.injEq] at h
        simp [List.dropWhile, h]
  have htake : (seg ++ tail).takeWhile (fun x => decide (x ≠ 0x2F)) = seg := by
    rw [List.takeWhile_append_of_pos hp, htake0, List.append_nil]
  have hdrop : (seg ++ tail).dropWhile (fun x => decide (x ≠ 0x2F)) = tail := by
    rw [List.dropWhile_append_of_pos hp, hdrop0]
  have hhead : ∀ l : GoString, (l ++ tail = [] ∨ (l ++ tail).head? = some 0x2F) → l = [] ∨
      l.head? = some 0x2F := by
    intro l h
    cases l with
    | nil => exact Or.inl rfl
    | cons d t => right; simpa using h
  cases seg with
  | nil => exact absurd rfl hne
  | cons c rest =>
    have hc : c ≠ 0x2F := fun h => hslash (by simp [h])
    have hrest : ∀ h : rest.head? = some 0x2F, False := by
      intro h
      cases rest with
      | nil => simp at h
      | cons d rest' =>
        simp only [List.head?_cons, Option.some.injEq] at h
        exact hslash (by simp [h])
    have h1 : ¬ (c = 0x2E ∧ (rest ++ tail = [] ∨ (rest ++ tail).head? = some 0x2F)) := by
      rintro ⟨rfl, h⟩
      rcases hhead rest h with h | h
      · exact hdot (by rw [h])
      · exact hrest h
    have h2 : ¬ (c = 0x2E ∧ (rest ++ tail).head? = some 0x2E ∧
        ((rest ++ tail).tail = [] ∨ (rest ++ tail).tail.head? = some 0x2F)) := by
      rintro ⟨rfl, h, h'⟩
      cases rest with
      | nil =>
        simp only [List.nil_append] at h
        rcases htail with ht | ht
        · rw [ht] at h; simp at h
        · rw [ht] at h; simp at h
      | cons d rest' =>
        simp only [List.cons_append, List.head?_cons, Option.some.injEq] at h
        simp only [List.cons_append, List.tail_cons] at h'
        rcases hhead rest' h' with h'' | h''
        · exact hdotdot (by rw [h, h''])
        · cases rest' with
          | nil => simp at h''
          | cons e rest'' =>
            simp only [List.head?_cons, Option.some.injEq] at h''
            exact hslash (by simp [h''])
    have hstep := htake
    have hstep' := hdrop
    rw [List.cons_append] at hstep hstep'
    rw [List.cons_append, path.cleanLoop]
    simp only [hc, h1, h2, if_false, hstep, hstep']
    simp



/-- A name that is a single path element other than `.` and `..` is left unchanged by
`path.Clean`. -/
theorem path.Clean_single_element (name : GoString)
    (hne : name ≠ []) (hslash : 0x2F ∉ name) (hdot : name ≠ [0x2E])
    (hdotdot : name ≠ [0x2E, 0x2E]) : path.Clean name = name := by
  obtain ⟨k, hk⟩ : ∃ k, name.length = k + 1 :=
    ⟨name.length - 1, by have := List.length_pos.mpr hne; omega⟩
  have hrooted : ¬ (name.head? = some 0x2F) := by
    cases name with
    | nil => simp
    | cons c rest =>
      simp only [List.head?_cons, Option.some.injEq]
      exact fun h => hslash (by simp [h])
  have hloop := path.cleanLoop_element k name [] [] 0 hne hslash hdot hdotdot (Or.inl rfl)
  have hend : ∀ o : GoString, path.cleanLoop false k [] o 0 = o := by
    intro o; cases k <;> rfl
  rw [List.append_nil, hend] at hloop
  simp only [path.Clean, hne, if_false, hrooted, decide_False, Bool.false_eq_true, hk, hloop]
  simp [hne]

/-- For a name that is a single path element, other than `.` and `..`, the path read is
the file of that name directly inside `templates`. -/
theorem handler.templatePath_of_single_element (name : GoString)
    (hne : name ≠ []) (hslash : 0x2F ∉ name) (hdot : name ≠ [0x2E])
    (hdotdot : name ≠ [0x2E, 0x2E]) :
    templatePath name = str "templates/" ++ name := by
  have ht : str "templates/" = str "templates" ++ [0x2F] := by decide
  have hjoin : path.joinBuf [] [str "templates", name] = str "templates" ++ 0x2F :: name := by
    have h0 : str "templates" ≠ [] := by decide
    have h1 : 0 < (str "templates").length := by decide
    simp [path.joinBuf, h0, h1]
  have hsum : ¬ (List.map List.length [str "templates", name]).sum = 0 := by
    have h1 : 0 < (str "templates").length := by decide
    simp only [List.map_cons, List.map_nil, List.sum_cons, List.sum_nil]
    omega
  have hlen : (str "templates" ++ 0x2F :: name).length = name.length + 7 + 1 + 1 + 1 := by
    have h9 : (str "templates").length = 9 := by decide
    simp only [List.length_append, List.length_cons, h9]
    omega
  have hrooted : ¬ ((str "templates" ++ 0x2F :: name).head? = some 0x2F) := by
    have : (str "templates" ++ 0x2F :: name).head? = some 0x74 := by
      have h9 : str "templates" = 0x74 :: str "emplates" := by decide
      rw [h9]; rfl
    rw [this]; decide
  have hnonempty : str "templates" ++ 0x2F :: name ≠ [] := by simp
  have hend : ∀ o : GoString, path.cleanLoop false (name.length + 7) [] o 0 = o := by
    intro o; rfl
  have hloop : path.cleanLoop false (name.length + 7 + 1 + 1 + 1)
      (str "templates" ++ 0x2F :: name) [] 0 = str "templates" ++ 0x2F :: name := by
    rw [path.cleanLoop_element _ (str "templates") (0x2F :: name) [] 0 (by decide) (by decide)
      (by decide) (by decide) (Or.inr rfl)]
    rw [path.cleanLoop]
    simp only [if_true]
    have := path.cleanLoop_element (name.length + 7) name [] ([] ++ str "templates") 0 hne
      hslash hdot hdotdot (Or.inl rfl)
    rw [List.append_nil] at this
    simp only [List.length_nil, ne_eq, not_true_eq_false, if_false]
    rw [this, hend]
    have h9 : (str "templates").length ≠ 0 := by decide
    simp [h9]
  rw [templatePath, path.Clean_single_element name hne hslash hdot hdotdot, path.Join]
  simp only [hsum, if_false, hjoin, path.Clean, hnonempty, hrooted, decide_False,
    Bool.false_eq_true, hlen, hloop]
  simp [ht]

/-! ## Lemmas on extensions and plain tokens -/


/-- The loop of `filepath.Ext` passes over bytes that are neither a dot nor a slash. -/
theorem filepath.extLoop_plain (l : GoString) :
    ∀ (X acc : GoString), (∀ c ∈ l, c ≠ 0x2E ∧ c ≠ 0x2F) →
      filepath.extLoop (l ++ X) acc = filepath.extLoop X (l.reverse ++ acc) := by
  induction l with
  | nil => intro X acc _; rfl
  | cons c l ih =>
    intro X acc h
    obtain ⟨h1, h2⟩ := h c (by simp)
    rw [List.cons_append, filepath.extLoop]
    simp only [h1, h2, if_false]
    rw [ih _ _ (fun c hc => h c (by simp [hc]))]
    simp

/-- The extension is the text from the last dot of the final path element. -/
theorem filepath.Ext_of_dot (front suffix : GoString)
    (h : ∀ c ∈ suffix, c ≠ 0x2E ∧ c ≠ 0x2F) :
    filepath.Ext (front ++ 0x2E :: suffix) = 0x2E :: suffix := by
  have h' : ∀ c ∈ suffix.reverse, c ≠ 0x2E ∧ c ≠ 0x2F := fun c hc => h c (by simpa using hc)
  rw [filepath.Ext, List.reverse_append, List.reverse_cons, List.append_assoc,
    filepath.extLoop_plain _ _ _ h']
  simp [filepath.extLoop]

/-- The extension is empty when the final path element has no dot. -/
theorem filepath.Ext_of_no_dot (front last : GoString)
    (h : ∀ c ∈ last, c ≠ 0x2E ∧ c ≠ 0x2F) :
    filepath.Ext last = [] ∧ filepath.Ext (front ++ 0x2F :: last) = [] := by
  have h' : ∀ c ∈ last.reverse, c ≠ 0x2E ∧ c ≠ 0x2F := fun c hc => h c (by simpa using hc)
  constructor
  · have := filepath.extLoop_plain last.reverse [] [] h'
    rw [List.append_nil] at this
    rw [filepath.Ext, this]
    rfl
  · rw [filepath.Ext, List.reverse_append, List.reverse_cons, List.append_assoc,
      filepath.extLoop_plain _ _ _ h']
    simp [filepath.extLoop]

/-- A token of ASCII bytes from `htmlSafeSet` (letters and digits among them) consists of
characters the JSON encoder writes unescaped. -/
theorem spec.jsonUnescaped_of_htmlSafe (token : GoString)
    (h : ∀ b ∈ token, json.htmlSafeSet b = true) : spec.jsonUnescaped token = true := by
  unfold spec.jsonUnescaped utf8.allRunes
  induction token with
  | nil => rfl
  | cons b rest ih =>
    have hb := h b (by simp)
    have hb' := hb
    simp only [json.htmlSafeSet, decide_eq_true_eq] at hb'
    have hd := utf8.DecodeRuneInString_ascii b rest (by omega)
    have ih' := ih (fun c hc => h c (by simp [hc]))
    simp only [List.length_cons, utf8.allRunesLoop, hd, List.drop_succ_cons, List.drop_zero,
      ih', Bool.and_true, hb, Bool.or_true, Bool.true_and, Bool.and_eq_true, Bool.not_eq_true',
      Bool.and_eq_false_iff, Bool.or_eq_false_iff, decide_eq_false_iff_not, utf8.RuneError]
    refine ⟨⟨Or.inl (by omega), by omega, by omega⟩, ?_⟩
    simpa only [utf8.RuneError] using ih'

/-! ## Properties of the handler -/

open handler

/-- The content type the handler announces: the type the MIME tables give for the
extension, or `text/plain` when they give none. -/
theorem PathHandler_header (m : mime.Tables) (fs : FileSystem) (slack : SlackService)
    (s : SSRFSheriffRouter) (r : Request) :
    (PathHandler m fs slack s r).1.header =
      [(str "X-Secret-Token", [s.ssrfToken]),
        (str "Content-Type",
          [if mime.TypeByExtension m (filepath.Ext r.Path) = [] then str "text/plain"
            else mime.TypeByExtension m (filepath.Ext r.Path)])] := by
  have hne : str "Content-Type" ≠ str "X-Secret-Token" := by decide
  simp [PathHandler, Header.Set, hne]

/-- The body the handler writes is the response string of the `switch`. -/
theorem PathHandler_body (m : mime.Tables) (fs : FileSystem) (slack : SlackService)
    (s : SSRFSheriffRouter) (r : Request) :
    (PathHandler m fs slack s r).1.body = responseFor fs s.ssrfToken (filepath.Ext r.Path) :=
  rfl

/-- C1: for every request path, token, state of the templates directory and outcome of
the Slack call, the response `PathHandler` writes has status 200 and an `X-Secret-Token`
header whose value is exactly the configured token. -/
theorem PathHandler_status_and_token_header (m : mime.Tables) (fs : FileSystem)
    (slack : SlackService) (s : SSRFSheriffRouter) (r : Request) :
    (PathHandler m fs slack s r).1.status = 200 ∧
      (PathHandler m fs slack s r).1.header.lookup (str "X-Secret-Token") =
        some [s.ssrfToken] := by
  refine ⟨rfl, ?_⟩
  rw [PathHandler_header]
  simp [List.lookup]

/-- C4: the HTTP response is independent of notification delivery: whatever the Slack
service returns (an error or a success), the status, headers and body written are the
same. -/
theorem PathHandler_response_independent_of_slack (m : mime.Tables) (fs : FileSystem)
    (slack₁ slack₂ : SlackService) (s : SSRFSheriffRouter) (r : Request) :
    (PathHandler m fs slack₁ s r).1 = (PathHandler m fs slack₂ s r).1 :=
  rfl

/-- The outcome of the Slack call only shows in the log: a rejected message adds the
error line, an accepted one does not. -/
theorem PathHandler_log_records_slack_error :
    (PathHandler mime.builtinTables sample.noFiles sample.slackDown sample.router
        (sample.request (str "/foo.json"))).2.length = 2 ∧
    (PathHandler mime.builtinTables sample.noFiles sample.slackUp sample.router
        (sample.request (str "/foo.json"))).2.length = 1 := by
  decide

/-- The path read for each of the seven assets the handler names. -/
theorem templatePath_assets :
    templatePath (str "html.html") = str "templates/html.html" ∧
    templatePath (str "csv.csv") = str "templates/csv.csv" ∧
    templatePath (str "gif.gif") = str "templates/gif.gif" ∧
    templatePath (str "png.png") = str "templates/png.png" ∧
    templatePath (str "jpeg.jpg") = str "templates/jpeg.jpg" ∧
    templatePath (str "mp3.mp3") = str "templates/mp3.mp3" ∧
    templatePath (str "mp4.mp4") = str "templates/mp4.mp4" := by
  decide

/-- The response string for a static-media extension is what `readTemplateFile` returns
for the asset the specification names. -/
theorem responseFor_media (fs : FileSystem) (token ext name : GoString)
    (h : spec.mediaAsset ext = some name) :
    responseFor fs token ext = some (readTemplateFile fs name) := by
  unfold spec.mediaAsset at h
  split_ifs at h with h1 h2 h3 h4 h5 <;> simp only [Option.some.injEq] at h <;> subst h
  · subst h1; simp +decide [responseFor]
  · subst h2; simp +decide [responseFor]
  · rcases h3 with h3 | h3 <;> subst h3 <;> simp +decide [responseFor]
  · subst h4; simp +decide [responseFor]
  · subst h5; simp +decide [responseFor]

/-- C9: for a request path with a static-media extension the body is byte for byte the
content of the corresponding asset under `templates` (`.gif -> gif.gif`,
`.png -> png.png`, `.jpg` and `.jpeg -> jpeg.jpg`, `.mp3 -> mp3.mp3`, `.mp4 -> mp4.mp4`),
and it does not depend on the token: two routers with different tokens write the same
body for the same templates directory. -/
theorem static_media_body_verbatim (m : mime.Tables) (fs : FileSystem)
    (slack : SlackService) (s : SSRFSheriffRouter) (r : Request) (name : GoString)
    (hext : spec.mediaAsset (filepath.Ext r.Path) = some name) :
    (∀ data, fs (str "templates/" ++ name) = some data →
        (PathHandler m fs slack s r).1.body = some data) ∧
      ∀ s₂ : SSRFSheriffRouter,
        (PathHandler m fs slack s₂ r).1.body = (PathHandler m fs slack s r).1.body := by
  have hpath : templatePath name = str "templates/" ++ name := by
    unfold spec.mediaAsset at hext
    split_ifs at hext <;> simp only [Option.some.injEq] at hext <;> subst hext <;> decide
  refine ⟨fun data hdata => ?_, fun s₂ => ?_⟩
  · rw [PathHandler_body, responseFor_media fs _ _ name hext]
    simp [readTemplateFile, hpath, hdata]
  · rw [PathHandler_body, PathHandler_body, responseFor_media fs _ _ name hext,
      responseFor_media fs _ _ name hext]

/-- Witness for C9: `/cat.jpeg` is answered with the four bytes of `templates/jpeg.jpg`,
which are not valid UTF-8. -/
theorem static_media_body_verbatim_witness :
    (PathHandler mime.builtinTables sample.assets sample.slackUp sample.router
        (sample.request (str "/cat.jpeg"))).1.body = some [0xFF, 0xD8, 0xFF, 0xE0] :=
  (static_media_body_verbatim mime.builtinTables sample.assets sample.slackUp sample.router
    (sample.request (str "/cat.jpeg")) (str "jpeg.jpg") (by decide)).1 _ (by decide)

/-- The response string for an extension without a case in the `switch` is the raw
token. -/
theorem responseFor_default (fs : FileSystem) (token ext : GoString)
    (h : ext ∉ spec.handledExtensions) : responseFor fs token ext = some token := by
  simp only [spec.handledExtensions, List.mem_cons, List.mem_nil_iff, or_false, not_or] at h
  obtain ⟨h1, h2, h3, h4, h5, h6, h7, h8, h9, h10, h11⟩ := h
  simp [responseFor, h1, h2, h3, h4, h5, h6, h7, h8, h9, h10, h11]

/-- C3, as stated, fails: `/foo.pdf` has an extension outside the eleven handled ones, yet
with Go's built-in MIME table the Content-Type written is `application/pdf`, not
`text/plain` (the body is the raw token); likewise `/foo.JSON`, which the case-sensitive
`switch` does not handle, gets `application/json` from the case-insensitive MIME lookup. -/
theorem default_kind_content_type_counterexample :
    filepath.Ext (str "/foo.pdf") ∉ spec.handledExtensions ∧
    (PathHandler mime.builtinTables sample.noFiles sample.slackUp sample.router
        (sample.request (str "/foo.pdf"))).1.body = some (str "abc123") ∧
    (PathHandler mime.builtinTables sample.noFiles sample.slackUp sample.router
        (sample.request (str "/foo.pdf"))).1.header.lookup (str "Content-Type") =
      some [str "application/pdf"] ∧
    str "application/pdf" ≠ str "text/plain" ∧
    filepath.Ext (str "/foo.JSON") ∉ spec.handledExtensions ∧
    (PathHandler mime.builtinTables sample.noFiles sample.slackUp sample.router
        (sample.request (str "/foo.JSON"))).1.body = some (str "abc123") ∧
    (PathHandler mime.builtinTables sample.noFiles sample.slackUp sample.router
        (sample.request (str "/foo.JSON"))).1.header.lookup (str "Content-Type") =
      some [str "application/json"] := by
  decide

/-- C3, amended: for every request path whose extension is not one of the eleven handled
ones, the body is exactly the raw token and the Content-Type header is the type the MIME
tables give for the extension, `text/plain` when they give none. -/
theorem default_kind_body_and_content_type (m : mime.Tables) (fs : FileSystem)
    (slack : SlackService) (s : SSRFSheriffRouter) (r : Request)
    (hext : filepath.Ext r.Path ∉ spec.handledExtensions) :
    (PathHandler m fs slack s r).1.body = some s.ssrfToken ∧
    (PathHandler m fs slack s r).1.header.lookup (str "Content-Type") =
      some [if mime.TypeByExtension m (filepath.Ext r.Path) = [] then str "text/plain"
        else mime.TypeByExtension m (filepath.Ext r.Path)] ∧
    (mime.TypeByExtension m (filepath.Ext r.Path) = [] →
      (PathHandler m fs slack s r).1.header.lookup (str "Content-Type") =
        some [str "text/plain"]) := by
  have hne : (str "Content-Type" == str "X-Secret-Token") = false := by decide
  have hself : (str "Content-Type" == str "Content-Type") = true := by decide
  refine ⟨?_, ?_, fun hnone => ?_⟩
  · rw [PathHandler_body, responseFor_default fs _ _ hext]
  · rw [PathHandler_header]
    simp only [List.lookup, hne, hself]
  · rw [PathHandler_header]
    simp only [List.lookup, hne, hself, hnone, if_true]

/-- Witness for C3: `/foo.unknownext` with token `abc123` and the built-in MIME table is
answered with body `abc123` and Content-Type `text/plain`. -/
theorem default_kind_body_and_content_type_witness :
    filepath.Ext (str "/foo.unknownext") ∉ spec.handledExtensions ∧
    (PathHandler mime.builtinTables sample.noFiles sample.slackUp sample.router
        (sample.request (str "/foo.unknownext"))).1.body = some (str "abc123") ∧
    (PathHandler mime.builtinTables sample.noFiles sample.slackUp sample.router
        (sample.request (str "/foo.unknownext"))).1.header.lookup (str "Content-Type") =
      some [str "text/plain"] :=
  ⟨by decide,
    (default_kind_body_and_content_type mime.builtinTables sample.noFiles sample.slackUp
      sample.router (sample.request (str "/foo.unknownext")) (by decide)).1,
    (default_kind_body_and_content_type mime.builtinTables sample.noFiles sample.slackUp
      sample.router (sample.request (str "/foo.unknownext")) (by decide)).2.2 (by decide)⟩

/-- The function `readTemplateFile` returns the empty string when the file cannot be
read. -/
theorem readTemplateFile_unreadable (fs : FileSystem) (name : GoString)
    (h : fs (templatePath name) = none) : readTemplateFile fs name = [] := by
  simp [readTemplateFile, h]

/-- For the static-media extensions an asset that cannot be read gives the empty body. -/
theorem missing_media_asset_empty_body (m : mime.Tables) (fs : FileSystem)
    (slack : SlackService) (s : SSRFSheriffRouter) (r : Request) (name : GoString)
    (hext : spec.mediaAsset (filepath.Ext r.Path) = some name)
    (hmissing : fs (str "templates/" ++ name) = none) :
    (PathHandler m fs slack s r).1.body = some [] := by
  have hpath : templatePath name = str "templates/" ++ name := by
    unfold spec.mediaAsset at hext
    split_ifs at hext <;> simp only [Option.some.injEq] at hext <;> subst hext <;> decide
  rw [PathHandler_body, responseFor_media fs _ _ name hext,
    readTemplateFile_unreadable fs name (by rw [hpath]; exact hmissing)]

/-- For `.html` a template that cannot be read gives, for every token, the text with
which `fmt.Sprintf` reports the two unused operands. -/
theorem missing_html_template_body (m : mime.Tables) (fs : FileSystem)
    (slack : SlackService) (s : SSRFSheriffRouter) (r : Request)
    (hext : filepath.Ext r.Path = str ".html")
    (hmissing : fs (str "templates/html.html") = none) :
    (PathHandler m fs slack s r).1.body =
      some (str "%!(EXTRA string=" ++ s.ssrfToken ++ str ", string=" ++ s.ssrfToken ++
        str ")") := by
  have hpath : templatePath (str "html.html") = str "templates/html.html" := by decide
  have hcase : responseFor fs s.ssrfToken (str ".html") =
      fmt.Sprintf (readTemplateFile fs (str "html.html")) [s.ssrfToken, s.ssrfToken] := by
    simp +decide [responseFor]
  have h1 : str "%!(EXTRA " ++ str "string=" = str "%!(EXTRA string=" := by decide
  have h2 : str ", " ++ str "string=" = str ", string=" := by decide
  rw [PathHandler_body, hext, hcase,
    readTemplateFile_unreadable fs _ (by rw [hpath]; exact hmissing)]
  simp only [fmt.Sprintf, fmt.doPrintf, fmt.extra, List.length_cons, List.length_nil,
    List.drop_zero, List.map_cons, List.map_nil]
  rw [← h1, ← h2]
  simp [List.intercalate]

/-- C5 at its failing inputs: when `templates/html.html` and `templates/csv.csv` cannot be
read, the bodies for `/x.html` and `/x.csv` are not empty: `fmt.Sprintf` receives the
empty format together with the token operands and reports them as extra. -/
theorem missing_template_body_not_empty :
    (PathHandler mime.builtinTables sample.noFiles sample.slackUp sample.router
        (sample.request (str "/x.html"))).1.body =
      some (str "%!(EXTRA string=abc123, string=abc123)") ∧
    (PathHandler mime.builtinTables sample.noFiles sample.slackUp sample.router
        (sample.request (str "/x.csv"))).1.body = some (str "%!(EXTRA string=abc123)") ∧
    (PathHandler mime.builtinTables sample.noFiles sample.slackUp sample.router
        (sample.request (str "/x.html"))).1.status = 200 := by
  decide

/-- C10, as stated, fails: for the name `../x` the path read is `x`, which is not
`templates/` followed by a segment, and for `sub/x` it is `templates/sub/x`, whose part
after `templates/` contains a slash; `readTemplateFile` returns the content of those
files. -/
theorem templatePath_not_confined_counterexample :
    templatePath (str "../x") = str "x" ∧
    (¬ ∃ segment, templatePath (str "../x") = str "templates/" ++ segment) ∧
    templatePath (str "sub/x") = str "templates/" ++ str "sub/x" ∧
    0x2F ∈ str "sub/x" ∧
    readTemplateFile sample.outside (str "../x") = str "outside" ∧
    readTemplateFile sample.outside (str "sub/x") = str "nested" := by
  refine ⟨by decide, ?_, by decide, by decide, by decide, by decide⟩
  rintro ⟨segment, h⟩
  have hx : templatePath (str "../x") = str "x" := by decide
  rw [hx] at h
  have hlen := congrArg List.length h
  have h1 : (str "x").length = 1 := by decide
  have h10 : (str "templates/").length = 10 := by decide
  rw [List.length_append, h1, h10] at hlen
  omega

/-- C10, amended: for every name that is a single path segment (not empty, without a
slash, and neither `.` nor `..`), the path `readTemplateFile` computes and reads is
`templates/` followed by that name, a file directly inside the `templates` directory; the
function returns the content of that file, or the empty string if it cannot be read. -/
theorem templatePath_single_segment_confined (fs : FileSystem) (name : GoString)
    (hne : name ≠ []) (hslash : 0x2F ∉ name) (hdot : name ≠ str ".")
    (hdotdot : name ≠ str "..") :
    templatePath name = str "templates/" ++ name ∧
    readTemplateFile fs name = (fs (str "templates/" ++ name)).getD [] := by
  have hpath := templatePath_of_single_element name hne hslash hdot hdotdot
  refine ⟨hpath, ?_⟩
  rw [readTemplateFile, hpath]
  cases fs (str "templates/" ++ name) <;> rfl

/-- Witness for C10: the name `html.html`, one of the seven names `PathHandler` passes,
is read from `templates/html.html`. -/
theorem templatePath_single_segment_confined_witness :
    templatePath (str "html.html") = str "templates/" ++ str "html.html" ∧
    readTemplateFile sample.assets (str "html.html") =
      (sample.assets (str "templates/" ++ str "html.html")).getD [] :=
  templatePath_single_segment_confined sample.assets (str "html.html") (by decide) (by decide)
    (by decide) (by decide)

/-- C8: for every token (also one that contains `%`) and every CSV template of the form
`pre ++ "%s" ++ post` in which `pre` and `post` hold no `%`, a request with extension
`.csv` is answered with the body `pre ++ token ++ post`: the token is substituted exactly
once and nothing else changes. -/
theorem csv_body_substitutes_token_once (m : mime.Tables) (fs : FileSystem)
    (slack : SlackService) (s : SSRFSheriffRouter) (r : Request) (pre post : GoString)
    (hext : filepath.Ext r.Path = str ".csv")
    (htemplate : fs (str "templates/csv.csv") = some (pre ++ str "%s" ++ post))
    (hpre : 0x25 ∉ pre) (hpost : 0x25 ∉ post) :
    (PathHandler m fs slack s r).1.body = some (pre ++ s.ssrfToken ++ post) := by
  have hpath : templatePath (str "csv.csv") = str "templates/csv.csv" := by decide
  have hread : readTemplateFile fs (str "csv.csv") = pre ++ str "%s" ++ post := by
    simp [readTemplateFile, hpath, htemplate]
  rw [PathHandler_body, hext]
  have hcase : responseFor fs s.ssrfToken (str ".csv") =
      fmt.Sprintf (readTemplateFile fs (str "csv.csv")) [s.ssrfToken] := by
    simp +decide [responseFor]
  rw [hcase, hread, fmt.Sprintf_one_verb _ _ _ hpre hpost]

/-- Witness for C8: `/x.csv` with template `token,\n%s,\n` and token `tok` is answered with
`token,\ntok,\n`; the same template with the token `50%s` gives `token,\n50%s,\n`. -/
theorem csv_body_substitutes_token_once_witness :
    (PathHandler mime.builtinTables sample.assets sample.slackUp (sample.routerWith (str "tok"))
        (sample.request (str "/x.csv"))).1.body = some (str "token,\ntok,\n") ∧
    (PathHandler mime.builtinTables sample.assets sample.slackUp (sample.routerWith (str "50%s"))
        (sample.request (str "/x.csv"))).1.body = some (str "token,\n50%s,\n") :=
  ⟨csv_body_substitutes_token_once mime.builtinTables sample.assets sample.slackUp
      (sample.routerWith (str "tok")) (sample.request (str "/x.csv")) (str "token,\n") (str ",\n")
      (by decide) (by decide) (by decide) (by decide),
    csv_body_substitutes_token_once mime.builtinTables sample.assets sample.slackUp
      (sample.routerWith (str "50%s")) (sample.request (str "/x.csv")) (str "token,\n")
      (str ",\n") (by decide) (by decide) (by decide) (by decide)⟩

/-- C6: for a token made only of characters the JSON encoder writes unescaped and a
request path with extension `.json`, with MIME tables that give `application/json` for
`.json` (as Go's built-in table does), the response has status 200, Content-Type
`application/json`, `X-Secret-Token` equal to the token, and the body is exactly
`{"token":"<token>"}` without white space. -/
theorem json_response_exact (m : mime.Tables) (fs : FileSystem) (slack : SlackService)
    (s : SSRFSheriffRouter) (r : Request)
    (hext : filepath.Ext r.Path = str ".json")
    (htoken : spec.jsonUnescaped s.ssrfToken = true)
    (hmime : m.mimeTypes.lookup (str ".json") = some (str "application/json")) :
    (PathHandler m fs slack s r).1.status = 200 ∧
    (PathHandler m fs slack s r).1.header.lookup (str "Content-Type") =
      some [str "application/json"] ∧
    (PathHandler m fs slack s r).1.header.lookup (str "X-Secret-Token") = some [s.ssrfToken] ∧
    (PathHandler m fs slack s r).1.body =
      some (str "\x7b\"token\":\"" ++ s.ssrfToken ++ str "\"\x7d") := by
  have hne : (str "Content-Type" == str "X-Secret-Token") = false := by decide
  have hself : (str "Content-Type" == str "Content-Type") = true := by decide
  have htype : mime.TypeByExtension m (str ".json") = str "application/json" := by
    simp [mime.TypeByExtension, hmime]
  have hnonempty : str "application/json" ≠ [] := by decide
  refine ⟨rfl, ?_, ?_, ?_⟩
  · rw [PathHandler_header, hext, htype]
    simp only [List.lookup, hne, hself, hnonempty, if_false]
  · rw [PathHandler_header]
    simp [List.lookup]
  · rw [PathHandler_body, hext]
    have hcase : responseFor fs s.ssrfToken (str ".json") =
        some (json.Marshal { SecretToken := s.ssrfToken }) := by
      simp [responseFor]
    rw [hcase, json.Marshal_token_unescaped _ htoken]

/-- Witness for C6: `/foo.json` with token `abc123` and the built-in MIME table is answered
with status 200, `Content-Type: application/json`, `X-Secret-Token: abc123` and the body
`{"token":"abc123"}`. -/
theorem json_response_exact_witness :
    (PathHandler mime.builtinTables sample.noFiles sample.slackUp sample.router
        (sample.request (str "/foo.json"))).1.status = 200 ∧
    (PathHandler mime.builtinTables sample.noFiles sample.slackUp sample.router
        (sample.request (str "/foo.json"))).1.header.lookup (str "Content-Type") =
      some [str "application/json"] ∧
    (PathHandler mime.builtinTables sample.noFiles sample.slackUp sample.router
        (sample.request (str "/foo.json"))).1.header.lookup (str "X-Secret-Token") =
      some [str "abc123"] ∧
    (PathHandler mime.builtinTables sample.noFiles sample.slackUp sample.router
        (sample.request (str "/foo.json"))).1.body = some (str "\x7b\"token\":\"abc123\"\x7d") :=
  json_response_exact mime.builtinTables sample.noFiles sample.slackUp sample.router
    (sample.request (str "/foo.json")) (by decide) (by decide) (by decide)

/-- C2, as stated, fails for `.json` and `.xml`: the token `a"b` is written to the JSON
body as `a\"b`, and the token `a<b` to the XML body as `a&lt;b`; neither body contains
the token. -/
theorem body_contains_token_counterexample :
    (PathHandler mime.builtinTables sample.assets sample.slackUp (sample.routerWith (str "a\"b"))
        (sample.request (str "/a.json"))).1.body = some (str "\x7b\"token\":\"a\\\"b\"\x7d") ∧
    ¬ (str "a\"b" <:+: str "\x7b\"token\":\"a\\\"b\"\x7d") ∧
    (PathHandler mime.builtinTables sample.assets sample.slackUp (sample.routerWith (str "a<b"))
        (sample.request (str "/a.xml"))).1.body =
      some (str "<SerializableResponse><token>a&lt;b</token></SerializableResponse>") ∧
    ¬ (str "a<b" <:+: str "<SerializableResponse><token>a&lt;b</token></SerializableResponse>") := by
  decide

/-- C2, amended: with `html.html` and `csv.csv` present as the documented templates (two,
respectively one, `%s` and no other `%`), for a request path whose extension is `.json`,
`.xml`, `.html`, `.csv`, `.txt` or none of the handled ones, the body contains the exact
token as a contiguous substring, provided that for `.json` (for `.xml`) the token has no
character the JSON (the XML) encoder escapes or replaces. -/
theorem body_contains_token (m : mime.Tables) (fs : FileSystem) (slack : SlackService)
    (s : SSRFSheriffRouter) (r : Request) (a b c pre post : GoString)
    (hhtml : fs (str "templates/html.html") = some (a ++ str "%s" ++ b ++ str "%s" ++ c))
    (ha : 0x25 ∉ a) (hb : 0x25 ∉ b) (hc : 0x25 ∉ c)
    (hcsv : fs (str "templates/csv.csv") = some (pre ++ str "%s" ++ post))
    (hpre : 0x25 ∉ pre) (hpost : 0x25 ∉ post)
    (hext : filepath.Ext r.Path ∈ [str ".json", str ".xml", str ".html", str ".csv", str ".txt"] ∨
      filepath.Ext r.Path ∉ spec.handledExtensions)
    (hjson : filepath.Ext r.Path = str ".json" → spec.jsonUnescaped s.ssrfToken = true)
    (hxml : filepath.Ext r.Path = str ".xml" → spec.xmlUnescaped s.ssrfToken = true) :
    ∃ body, (PathHandler m fs slack s r).1.body = some body ∧ s.ssrfToken <:+: body := by
  rw [PathHandler_body]
  rcases hext with hext | hext
  · simp only [List.mem_cons, List.mem_nil_iff, or_false] at hext
    rcases hext with h | h | h | h | h
    · refine ⟨_, ?_, ⟨str "\x7b\"token\":\"", str "\"\x7d", rfl⟩⟩
      rw [h, ← json.Marshal_token_unescaped _ (hjson h)]
      simp [responseFor]
    · refine ⟨_, ?_, ⟨str "<SerializableResponse><token>",
        str "</token></SerializableResponse>", rfl⟩⟩
      rw [h, ← xml.Marshal_text_unescaped _ (hxml h)]
      simp +decide [responseFor]
    · refine ⟨_, ?_, ⟨a, b ++ s.ssrfToken ++ c, rfl⟩⟩
      have hpath : templatePath (str "html.html") = str "templates/html.html" := by decide
      have hread : readTemplateFile fs (str "html.html") =
          a ++ str "%s" ++ b ++ str "%s" ++ c := by
        simp [readTemplateFile, hpath, hhtml]
      have hcase : responseFor fs s.ssrfToken (str ".html") =
          fmt.Sprintf (readTemplateFile fs (str "html.html")) [s.ssrfToken, s.ssrfToken] := by
        simp +decide [responseFor]
      rw [h, hcase, hread, fmt.Sprintf_two_verbs _ _ _ _ _ ha hb hc]
      simp only [List.append_assoc]
    · refine ⟨_, ?_, ⟨pre, post, rfl⟩⟩
      have hpath : templatePath (str "csv.csv") = str "templates/csv.csv" := by decide
      have hread : readTemplateFile fs (str "csv.csv") = pre ++ str "%s" ++ post := by
        simp [readTemplateFile, hpath, hcsv]
      have hcase : responseFor fs s.ssrfToken (str ".csv") =
          fmt.Sprintf (readTemplateFile fs (str "csv.csv")) [s.ssrfToken] := by
        simp +decide [responseFor]
      rw [h, hcase, hread, fmt.Sprintf_one_verb _ _ _ hpre hpost]
    · refine ⟨_, ?_, ⟨str "token=", [], rfl⟩⟩
      have hcase : responseFor fs s.ssrfToken (str ".txt") =
          fmt.Sprintf (str "token=%s") [s.ssrfToken] := by
        simp +decide [responseFor]
      have hfmt : str "token=%s" = str "token=" ++ str "%s" ++ [] := by decide
      rw [h, hcase, hfmt, fmt.Sprintf_one_verb _ _ _ (by decide) (by decide)]
  · exact ⟨_, responseFor_default fs _ _ hext, List.infix_refl _⟩

/-- Witness for C2: `/a.html` with the template `<html><b>%s</b><i>%s</i></html>` and the
token `abc123`. -/
theorem body_contains_token_witness :
    ∃ body, (PathHandler mime.builtinTables sample.assets sample.slackUp sample.router
        (sample.request (str "/a.html"))).1.body = some body ∧ str "abc123" <:+: body :=
  body_contains_token mime.builtinTables sample.assets sample.slackUp sample.router
    (sample.request (str "/a.html")) (str "<html><b>") (str "</b><i>") (str "</i></html>")
    (str "token,\n") (str ",\n") (by decide) (by decide) (by decide) (by decide) (by decide)
    (by decide) (by decide) (by decide) (by decide) (by decide)

/-- C7, as stated, fails: the token consisting of the control character U+0001 is valid
UTF-8, yet the XML body holds U+FFFD in its place, so reading the body back gives a
different value; the tokens U+0001 and U+0002 even produce the same XML body.  A Go
string may also hold bytes that are not UTF-8: for the token with the single byte `0xFF`
the JSON body holds `\ufffd`, which reads back as U+FFFD. -/
theorem json_xml_round_trip_counterexample :
    utf8.ValidString [0x01] = true ∧
    (PathHandler mime.builtinTables sample.noFiles sample.slackUp (sample.routerWith [0x01])
        (sample.request (str "/t.xml"))).1.body =
      some (str "<SerializableResponse><token>" ++ [0xEF, 0xBF, 0xBD] ++
        str "</token></SerializableResponse>") ∧
    spec.parseXMLElement (str "<SerializableResponse><token>" ++ [0xEF, 0xBF, 0xBD] ++
        str "</token></SerializableResponse>") =
      some (str "SerializableResponse", [(str "token", [0xEF, 0xBF, 0xBD])]) ∧
    [0xEF, 0xBF, 0xBD] ≠ [0x01] ∧
    (PathHandler mime.builtinTables sample.noFiles sample.slackUp (sample.routerWith [0x01])
        (sample.request (str "/t.xml"))).1.body =
      (PathHandler mime.builtinTables sample.noFiles sample.slackUp (sample.routerWith [0x02])
        (sample.request (str "/t.xml"))).1.body ∧
    (PathHandler mime.builtinTables sample.noFiles sample.slackUp (sample.routerWith [0xFF])
        (sample.request (str "/t.json"))).1.body = some (str "\x7b\"token\":\"\\ufffd\"\x7d") ∧
    spec.parseJSONObject (str "\x7b\"token\":\"\\ufffd\"\x7d") =
      some [(str "token", [0xEF, 0xBF, 0xBD])] ∧
    [0xEF, 0xBF, 0xBD] ≠ [0xFF] := by
  decide

/-- C7, amended: for every token that is valid UTF-8, reading the `.json` body as a JSON
object yields exactly one member, named `token`, whose decoded value is the token; for
every token that is valid UTF-8 and made of characters of the XML character range,
reading the `.xml` body as an XML element yields exactly one child, named `token`, whose
decoded text is the token. -/
theorem json_xml_round_trip (m : mime.Tables) (fs : FileSystem) (slack : SlackService)
    (s : SSRFSheriffRouter) (rj rx : Request)
    (hj : filepath.Ext rj.Path = str ".json") (hx : filepath.Ext rx.Path = str ".xml") :
    (utf8.ValidString s.ssrfToken = true →
      ∃ body, (PathHandler m fs slack s rj).1.body = some body ∧
        spec.parseJSONObject body = some [(str "token", s.ssrfToken)]) ∧
    (spec.xmlRepresentable s.ssrfToken = true →
      ∃ body, (PathHandler m fs slack s rx).1.body = some body ∧
        spec.parseXMLElement body =
          some (str "SerializableResponse", [(str "token", s.ssrfToken)])) := by
  refine ⟨fun hvalid => ⟨_, ?_, spec.parseJSONObject_Marshal _ hvalid⟩,
    fun hvalid => ⟨_, ?_, spec.parseXMLElement_Marshal _ hvalid⟩⟩
  · rw [PathHandler_body, hj]
    simp [responseFor]
  · rw [PathHandler_body, hx]
    simp +decide [responseFor]

/-- Witness for C7: the token `a<"b&` followed by `é` and U+2028 is read back from both
bodies. -/
theorem json_xml_round_trip_witness :
    (∃ body, (PathHandler mime.builtinTables sample.noFiles sample.slackUp
          (sample.routerWith (str "a<\"b&" ++ [0xC3, 0xA9, 0xE2, 0x80, 0xA8]))
          (sample.request (str "/t.json"))).1.body = some body ∧
        spec.parseJSONObject body =
          some [(str "token", str "a<\"b&" ++ [0xC3, 0xA9, 0xE2, 0x80, 0xA8])]) ∧
    (∃ body, (PathHandler mime.builtinTables sample.noFiles sample.slackUp
          (sample.routerWith (str "a<\"b&" ++ [0xC3, 0xA9, 0xE2, 0x80, 0xA8]))
          (sample.request (str "/t.xml"))).1.body = some body ∧
        spec.parseXMLElement body =
          some (str "SerializableResponse",
            [(str "token", str "a<\"b&" ++ [0xC3, 0xA9, 0xE2, 0x80, 0xA8])])) :=
  ⟨(json_xml_round_trip mime.builtinTables sample.noFiles sample.slackUp
      (sample.routerWith (str "a<\"b&" ++ [0xC3, 0xA9, 0xE2, 0x80, 0xA8]))
      (sample.request (str "/t.json")) (sample.request (str "/t.xml"))
      (by decide) (by decide)).1 (by decide),
    (json_xml_round_trip mime.builtinTables sample.noFiles sample.slackUp
      (sample.routerWith (str "a<\"b&" ++ [0xC3, 0xA9, 0xE2, 0x80, 0xA8]))
      (sample.request (str "/t.json")) (sample.request (str "/t.xml"))
      (by decide) (by decide)).2 (by decide)⟩

end SSRFSheriff
